import Mathlib

/-!
Verification development for the prompteng template core
(`packages/core/src/parser.ts`, class `TemplateParser`).

The TypeScript source builds on the liquidjs templating library with
`{ cache: true, jsTruthy: true, strictVariables: false }` and registers
one custom output tag (`upper`), one constraint tag (`must_include_each`),
one block tag (`section` / `endsection`) and eight filters
(`join`, `uniq`, `default`, `length`, `lower`, `upper`, `compact`, `sort`).

This file gives a shallow embedding of that engine fragment:

* `LValue` models the JSON-like runtime values of JavaScript, with an
  extra constructor `metaRef` for the identity of a render-metadata record
  (the source stores a mutable `PromptEngMeta` object inside the variable
  scope under the key `__promptengMeta`; here metadata records live in an
  explicit store and the scope holds an index into that store).
* A tokenizer recognizes `(opening brace)(percent) ... (percent)(closing brace)`
  tag tokens and double-brace output tokens, as liquidjs does, keeping the
  raw token text (liquidjs `token.getText()`), which appears in the
  "not closed" parse errors.
* A parser models liquidjs parse behaviour for the registered tag set:
  unknown tag names are a fatal parse error (`tag "x" not found`), block
  tags left open are a fatal parse error (`tag {% ... %} not closed`,
  raised by `SectionTag`'s constructor via the parse stream `end` event).
  liquidjs constructs that the embedding does not cover (for example
  `if` / `for` blocks or liquidjs built-in filters that the source does
  not override) are mapped to the distinguished error `unsupported`, so
  no theorem silently misreads them.
* An evaluator threads an explicit render state (caller environment,
  scope stack, metadata store), mirroring liquidjs `Context`
  (`scopes` searched top-down, then `environments`; `assign` / `capture`
  write to `ctx.bottom()`, i.e. the bottom scope frame; `ctx.push` adds a
  top frame).

JavaScript `undefined` and `null` are kept as separate constructors since
`String(x)` distinguishes them; JavaScript numbers are modelled as `Int`
(no claim involves fractional values); `String.prototype.length` counts
UTF-16 units while Lean counts characters, which agree on the ASCII
strings appearing in all claims.
-/

/-- JSON-like JavaScript runtime values, plus `metaRef`, the identity of a
render-metadata record stored in the metadata store of the render state. -/
inductive LValue where
  | undefined : LValue
  | null : LValue
  | bool (b : Bool) : LValue
  | num (n : Int) : LValue
  | str (s : String) : LValue
  | arr (xs : List LValue) : LValue
  | obj (fields : List (String × LValue)) : LValue
  | metaRef (i : Nat) : LValue

/-- One recorded constraint: the source type
`Constraint = \x7b type: 'must_include_each'; words: string[] \x7d`.
The field `type` is a Lean keyword, so it is called `ctype` here. -/
structure Constraint where
  ctype : String
  words : List String
deriving DecidableEq, Repr

/-- The render metadata record:
`PromptEngMeta = \x7b constraints: Constraint[]; sections: Sections \x7d`;
`sections` is a string-keyed JavaScript object, modelled as an
association list with at most one entry per key (`setKey` below). -/
structure PromptEngMeta where
  constraints : List Constraint
  sections : List (String × String)
deriving DecidableEq, Repr

/-- The empty metadata record `\x7b constraints: [], sections: \x7b\x7d \x7d`. -/
def emptyMeta : PromptEngMeta := ⟨[], []⟩

/-- JavaScript object key update: replace the value if the key is present
(keeping its position, as JS objects keep first-insertion key order),
otherwise append the binding. -/
def setKey {α : Type} : List (String × α) → String → α → List (String × α)
  | [], k, v => [(k, v)]
  | (a, b) :: t, k, v => if a = k then (k, v) :: t else (a, b) :: setKey t k v

/-- JavaScript object key lookup (first matching entry). -/
def lookupKey {α : Type} : List (String × α) → String → Option α
  | [], _ => none
  | (a, b) :: t, k => if a = k then some b else lookupKey t k

theorem lookupKey_setKey_self {α : Type} (m : List (String × α)) (k : String) (v : α) :
    lookupKey (setKey m k v) k = some v := by
  induction m with
  | nil => simp [setKey, lookupKey]
  | cons p t ih =>
    obtain ⟨a, b⟩ := p
    by_cases h : a = k
    · simp [setKey, lookupKey, h]
    · simp [setKey, lookupKey, h, ih]

theorem lookupKey_setKey_ne {α : Type} (m : List (String × α)) (k k' : String) (v : α)
    (h : k' ≠ k) : lookupKey (setKey m k v) k' = lookupKey m k' := by
  induction m with
  | nil => simp [setKey, lookupKey, Ne.symm h]
  | cons p t ih =>
    obtain ⟨a, b⟩ := p
    by_cases ha : a = k
    · subst ha
      simp [setKey, lookupKey, Ne.symm h]
    · simp [setKey, if_neg ha, lookupKey, ih]

/-- JavaScript loose truthiness (the engine is constructed with
`jsTruthy: true`): falsy values are `undefined`, `null`, `false`,
`0` and the empty string; everything else (including empty arrays and all
objects) is truthy. -/
def jsTruthy : LValue → Bool
  | .undefined => false
  | .null => false
  | .bool b => b
  | .num n => n ≠ 0
  | .str s => s ≠ ""
  | .arr _ => true
  | .obj _ => true
  | .metaRef _ => true

mutual
/-- JavaScript `String(x)` conversion: `undefined` and `null` print as
words, arrays print as their elements joined by commas with nil elements
blank (the `Array.prototype.toString` / `join` rule), and plain objects
print as `[object Object]`. -/
def jsString : LValue → String
  | .undefined => "undefined"
  | .null => "null"
  | .bool true => "true"
  | .bool false => "false"
  | .num n => toString n
  | .str s => s
  | .arr xs => jsStringList xs
  | .obj _ => "[object Object]"
  | .metaRef _ => "[object Object]"

/-- Comma-joined element strings of a JavaScript array, as produced by
`Array.prototype.toString`: `undefined` and `null` elements contribute
the empty string. -/
def jsStringList : List LValue → String
  | [] => ""
  | x :: xs =>
    (match x with
      | .undefined => ""
      | .null => ""
      | v => jsString v)
      ++ (match xs with
        | [] => ""
        | _ => "," ++ jsStringList xs)
end

mutual
/-- liquidjs output stringification (`stringify` in liquidjs):
nil values render as the empty string, arrays render as their elements
concatenated with no separator, plain objects as `[object Object]`. -/
def stringifyL : LValue → String
  | .undefined => ""
  | .null => ""
  | .bool true => "true"
  | .bool false => "false"
  | .num n => toString n
  | .str s => s
  | .arr xs => stringifyLList xs
  | .obj _ => "[object Object]"
  | .metaRef _ => "[object Object]"

/-- Concatenation of liquidjs-stringified array elements. -/
def stringifyLList : List LValue → String
  | [] => ""
  | x :: xs => stringifyL x ++ stringifyLList xs
end

/-- JavaScript whitespace recognized by `String.prototype.trim` as it
applies to the templates in scope (ASCII whitespace). -/
def isJsWs (c : Char) : Bool :=
  c = ' ' || c = '\t' || c = '\n' || c = '\r'

/-- Trim on character lists: drop leading and trailing whitespace. -/
def jsTrimList (l : List Char) : List Char :=
  ((l.dropWhile isJsWs).reverse.dropWhile isJsWs).reverse

/-- JavaScript `s.trim()`. -/
def jsTrim (s : String) : String :=
  String.mk (jsTrimList s.data)

/-- Split a character list at every occurrence of `sep` (JavaScript
`s.split(sep)` for a one-character separator: the empty string splits to
one empty piece, a trailing separator yields a trailing empty piece). -/
def splitCharAux (sep : Char) : List Char → List Char → List (List Char)
  | [], acc => [acc.reverse]
  | c :: rest, acc =>
    if c = sep then acc.reverse :: splitCharAux sep rest []
    else splitCharAux sep rest (c :: acc)

/-- JavaScript `s.split(sep)` for a one-character separator. -/
def splitChar (sep : Char) (l : List Char) : List (List Char) :=
  splitCharAux sep l []

/-- ASCII uppercase of a string (`String.toUpper` restated charwise; the
JavaScript `toUpperCase` agrees on the ASCII strings in scope). -/
def jsToUpper (s : String) : String :=
  String.mk (s.data.map Char.toUpper)

/-- ASCII lowercase of a string. -/
def jsToLower (s : String) : String :=
  String.mk (s.data.map Char.toLower)

/-- The word list of the `must_include_each` tag, from
`MustIncludeEachTag.render`: an array maps each element through
`String(x)`; a string is split on commas, each piece trimmed, empty
pieces discarded (`.filter(Boolean)`); any other value gives `[]`. -/
def mieWords : LValue → List String
  | .arr xs => xs.map jsString
  | .str s =>
    ((splitChar ',' s.data).map (fun l => String.mk (jsTrimList l))).filter
      (fun w => w ≠ "")
  | _ => []

/-- Inline text emitted by `must_include_each`: the fixed instructional
sentence when the word list is non-empty, the empty string otherwise. -/
def mieSentence (words : List String) : String :=
  if words.isEmpty then ""
  else "IMPORTANT: You MUST use EACH of these words at least once: "
    ++ String.intercalate ", " words ++ "."

mutual
/-- Boolean value equality, used to model the `SameValueZero` comparison of
the JavaScript `Set` inside the `uniq` filter. For primitives this is
exact; for arrays and objects JavaScript compares by reference, so the
source `uniq` never identifies two distinct array/object elements, while
this model identifies structurally equal ones — no claim depends on
`uniq` over non-primitive elements. -/
def lvEqb : LValue → LValue → Bool
  | .undefined, .undefined => true
  | .null, .null => true
  | .bool a, .bool b => a = b
  | .num a, .num b => a = b
  | .str a, .str b => a = b
  | .arr a, .arr b => lvEqbList a b
  | .obj a, .obj b => lvEqbFields a b
  | .metaRef a, .metaRef b => a = b
  | _, _ => false

/-- Elementwise `lvEqb` on lists. -/
def lvEqbList : List LValue → List LValue → Bool
  | [], [] => true
  | a :: as_, b :: bs => lvEqb a b && lvEqbList as_ bs
  | _, _ => false

/-- Elementwise `lvEqb` on key-value field lists. -/
def lvEqbFields : List (String × LValue) → List (String × LValue) → Bool
  | [], [] => true
  | (ka, va) :: as_, (kb, vb) :: bs => ka = kb && lvEqb va vb && lvEqbFields as_ bs
  | _, _ => false
end

/-- First-occurrence-order deduplication with a seen-accumulator, as
`Array.from(new Set(arr))` produces: an element equal to an earlier one
is dropped, otherwise it is kept and remembered. -/
def dedupeLVAux : List LValue → List LValue → List LValue
  | [], _ => []
  | x :: xs, seen =>
    if seen.any (lvEqb x) then dedupeLVAux xs seen
    else x :: dedupeLVAux xs (x :: seen)

/-- `Array.from(new Set(arr))`. -/
def dedupeLV (l : List LValue) : List LValue :=
  dedupeLVAux l []

/-- JavaScript string comparison (`<` on strings compares numeric code
unit values left to right; shorter prefix sorts first). -/
def charListLe : List Char → List Char → Bool
  | [], _ => true
  | _ :: _, [] => false
  | a :: as_, b :: bs =>
    if a.val < b.val then true
    else if b.val < a.val then false
    else charListLe as_ bs

/-- `a <= b` in JavaScript string order. -/
def jsStrLe (a b : String) : Bool := charListLe a.data b.data

/-- Stable insertion of `x` after all already-placed elements whose sort
key is `<=` that of `x`. -/
def insertLV (x : LValue) : List LValue → List LValue
  | [] => [x]
  | y :: ys =>
    if jsStrLe (jsString y) (jsString x) then y :: insertLV x ys
    else x :: y :: ys

/-- Default-comparator `Array.prototype.sort` on a copy (`[...arr].sort()`):
elements are compared as strings via `String(x)`, except that `undefined`
elements always sort to the end; the sort is stable. -/
def jsSort (l : List LValue) : List LValue :=
  (l.filter (fun v => !lvEqb v .undefined)).foldl (fun acc x => insertLV x acc) []
    ++ l.filter (fun v => lvEqb v .undefined)

/-- Element conversion used by `Array.prototype.join`: `undefined` and
`null` become the empty string, other values go through `String(x)`. -/
def jsJoinElem : LValue → String
  | .undefined => ""
  | .null => ""
  | v => jsString v

/-- The `join` filter:
`(arr, sep = ', ') => Array.isArray(arr) ? arr.join(sep) : String(arr ?? '')`.
The default separator applies exactly when the argument is absent or
`undefined` (JavaScript default-parameter rule). -/
def filterJoin (v : LValue) (args : List LValue) : LValue :=
  let sep : String :=
    match args.head? with
    | none => ", "
    | some .undefined => ", "
    | some w => jsString w
  match v with
  | .arr xs => .str (String.intercalate sep (xs.map jsJoinElem))
  | .undefined => .str ""
  | .null => .str ""
  | w => .str (jsString w)

/-- The `uniq` filter:
`(arr) => Array.isArray(arr) ? Array.from(new Set(arr)) : arr`. -/
def filterUniq (v : LValue) : LValue :=
  match v with
  | .arr xs => .arr (dedupeLV xs)
  | w => w

/-- The `default` filter:
`(val, def) => (val === undefined || val === null || val === '') ? def : val`.
A missing argument is JavaScript `undefined`. -/
def filterDefault (v : LValue) (args : List LValue) : LValue :=
  let d := args.headD .undefined
  match v with
  | .undefined => d
  | .null => d
  | .str "" => d
  | w => w

/-- The `length` filter: array element count, string length, key count
for non-null objects (a metadata record has the two keys `constraints`
and `sections`), `0` for everything else. -/
def filterLength (v : LValue) : LValue :=
  match v with
  | .arr xs => .num xs.length
  | .str s => .num s.length
  | .obj fields => .num fields.length
  | .metaRef _ => .num 2
  | _ => .num 0

/-- The `lower` filter: `(s) => String(s ?? '').toLowerCase()`. -/
def filterLower (v : LValue) : LValue :=
  match v with
  | .undefined => .str ""
  | .null => .str ""
  | w => .str (jsToLower (jsString w))

/-- The `upper` filter: `(s) => String(s ?? '').toUpperCase()`. -/
def filterUpper (v : LValue) : LValue :=
  match v with
  | .undefined => .str ""
  | .null => .str ""
  | w => .str (jsToUpper (jsString w))

/-- The `compact` filter:
`(arr) => Array.isArray(arr) ? arr.filter(Boolean) : arr`. -/
def filterCompact (v : LValue) : LValue :=
  match v with
  | .arr xs => .arr (xs.filter jsTruthy)
  | w => w

/-- The `sort` filter:
`(arr) => Array.isArray(arr) ? [...arr].sort() : arr`. -/
def filterSort (v : LValue) : LValue :=
  match v with
  | .arr xs => .arr (jsSort xs)
  | w => w

/-- The names of the eight filters the `TemplateParser` constructor
registers. -/
def builtinFilterNames : List String :=
  ["join", "uniq", "default", "length", "lower", "upper", "compact", "sort"]

/-- Filter dispatch during rendering. The engine is constructed without
`strictFilters`, and the liquidjs default `strictFilters: false` makes an
unregistered filter name a no-op (the value passes through unchanged)
rather than an error; that is the catch-all branch. liquidjs built-in
filters that the source neither overrides nor this model covers are
rejected earlier, at parse time (`parseFilterSeg` below). -/
def applyFilter (name : String) (v : LValue) (args : List LValue) : LValue :=
  if name = "join" then filterJoin v args
  else if name = "uniq" then filterUniq v
  else if name = "default" then filterDefault v args
  else if name = "length" then filterLength v
  else if name = "lower" then filterLower v
  else if name = "upper" then filterUpper v
  else if name = "compact" then filterCompact v
  else if name = "sort" then filterSort v
  else v

/-- The reserved scope key through which the source threads the metadata
record (`__promptengMeta`). -/
def pk : String := "__promptengMeta"

/-- Render errors. `parseE` models a fatal liquidjs parse error (line and
column information of the original messages is omitted); `unsupported`
marks inputs that fall outside this embedding (liquidjs constructs the
source inherits but no claim exercises), so that no theorem can mistake
an unmodelled construct for modelled behaviour. -/
inductive RErr where
  | parseE (msg : String) : RErr
  | unsupported (msg : String) : RErr
deriving DecidableEq, Repr

/-- An atomic liquid expression: a scope variable reference or a literal
(liquid string, integer, boolean or nil literal). Dotted paths, ranges
and non-integer numbers are rejected as `unsupported` at parse time. -/
inductive Atom where
  | varA (n : String) : Atom
  | litA (v : LValue) : Atom

/-- One filter application in a filter chain: a name and literal/variable
arguments. -/
structure FilterCall where
  fname : String
  args : List Atom

/-- A filtered value expression (liquidjs `Value`): an initial atom and a
left-to-right filter chain. Used both by output interpolations and by the
argument of the `upper` / `must_include_each` tags. -/
structure LExpr where
  base : Atom
  filters : List FilterCall

/-- The parsed template tree restricted to the directives the source
defines or uses: literal text, output interpolation, the custom tags
`upper`, `must_include_each` and `section`, and the liquidjs `assign` and
`capture` tags (which write into the bottom scope frame). -/
inductive Node where
  | text (s : String) : Node
  | outputN (e : LExpr) : Node
  | upperN (e : LExpr) : Node
  | mieN (e : LExpr) : Node
  | assignN (k : String) (e : LExpr) : Node
  | captureN (k : String) (body : List Node) : Node
  | secN (arg : String) (body : List Node) : Node

/-- The evaluation state of one render call, mirroring liquidjs `Context`
plus the heap of metadata records:
`envs` is the environments object handed to `parseAndRender` (read-only
in this fragment); `scopes` is the scope-frame stack with the head as the
top frame (`ctx.push` conses a frame; `ctx.bottom()` is the last frame;
lookups search top to bottom, then `envs`); `metas` is the store of
metadata records that `metaRef` indices point into. -/
structure RState where
  envs : List (String × LValue)
  scopes : List (List (String × LValue))
  metas : List PromptEngMeta

/-- Scope-stack lookup: first frame (top to bottom) that binds the name. -/
def findInScopes : List (List (String × LValue)) → String → Option LValue
  | [], _ => none
  | fr :: rest, n =>
    match lookupKey fr n with
    | some v => some v
    | none => findInScopes rest n

/-- `ctx.get([n])`: scopes first, then the environments object; a missing
name is JavaScript `undefined` (the engine sets `strictVariables: false`). -/
def getVar (st : RState) (n : String) : LValue :=
  match findInScopes st.scopes n with
  | some v => v
  | none =>
    match lookupKey st.envs n with
    | some v => v
    | none => .undefined

/-- Apply `f` to the last element of a list (the bottom scope frame). -/
def updateLast {α : Type} (f : α → α) : List α → List α
  | [] => []
  | [x] => [f x]
  | x :: xs => x :: updateLast f xs

/-- `ctx.bottom()[k] = v`: bind `k` in the bottom scope frame (used by
`assign` and `capture`). -/
def writeBottom (st : RState) (k : String) (v : LValue) : RState :=
  { st with scopes := updateLast (fun fr => setKey fr k v) st.scopes }

/-- Update the metadata record at index `i` of the store. -/
def updateMeta (metas : List PromptEngMeta) (i : Nat) (f : PromptEngMeta → PromptEngMeta) :
    List PromptEngMeta :=
  match metas, i with
  | [], _ => []
  | m :: rest, 0 => f m :: rest
  | m :: rest, Nat.succ j => m :: updateMeta rest j f

/-- The shared metadata lookup of `MustIncludeEachTag.render` and
`SectionTag.render`:
`let meta = ctx.get(['__promptengMeta']); if (!meta) { meta = { constraints: [], sections: {} }; ctx.push({ __promptengMeta: meta }); }`.
A falsy lookup result lazily creates a fresh record and pushes a top
scope frame binding `__promptengMeta` to it. A truthy value that is not a
metadata record is outside the model (the source would blindly use it as
one), reported as `unsupported`; no render started by `render` /
`renderWithMeta` on metadata-free variables reaches that branch. -/
def metaLookupOrInit (st : RState) : Except RErr (Nat × RState) :=
  match getVar st pk with
  | .metaRef i => .ok (i, st)
  | v =>
    if jsTruthy v then .error (.unsupported "truthy non-record __promptengMeta in scope")
    else
      .ok (st.metas.length,
        { st with
          metas := st.metas ++ [emptyMeta],
          scopes := [(pk, LValue.metaRef st.metas.length)] :: st.scopes })

/-- Append one constraint (`meta.constraints.push(...)`) to the record at
index `i`. -/
def pushConstraint (st : RState) (i : Nat) (words : List String) : RState :=
  { st with
    metas := updateMeta st.metas i
      (fun m => { m with constraints := m.constraints ++ [⟨"must_include_each", words⟩] }) }

/-- Store a captured section (`meta.sections[name] = text`, last write
wins) in the record at index `i`. -/
def putSection (st : RState) (i : Nat) (name text : String) : RState :=
  { st with
    metas := updateMeta st.metas i
      (fun m => { m with sections := setKey m.sections name text }) }

/-- Strip one pair of surrounding quotes (single or double) from the
`section` tag's name argument, as `SectionTag.render` does; a bare token
is used as-is. -/
def stripQuotes (s : String) : String :=
  let l := s.data
  match l with
  | [] => s
  | c :: _ =>
    if (c = Char.ofNat 34 || c = Char.ofNat 39) && l.getLast? = some c && l.length ≥ 2 then
      String.mk ((l.drop 1).dropLast)
    else s

/-- Evaluate an atom against the current state. -/
def evalAtom (st : RState) : Atom → LValue
  | .varA n => getVar st n
  | .litA v => v

/-- Evaluate one filter-chain step. -/
def evalFilterCall (st : RState) (v : LValue) (fc : FilterCall) : LValue :=
  applyFilter fc.fname v (fc.args.map (evalAtom st))

/-- Evaluate a filtered value expression left to right. -/
def evalLExpr (st : RState) (e : LExpr) : LValue :=
  e.filters.foldl (evalFilterCall st) (evalAtom st e.base)

mutual
/-- Render one node: returns the text it emits to the enclosing sink and
the updated state. Mirrors the `render` generators of the source tags:
`upper` emits `String(v).toUpperCase()`; `must_include_each` resolves or
lazily creates the metadata record, always appends exactly one
constraint, and emits the instructional sentence (or nothing for an
empty word list); `section` resolves the record, renders its body into a
`CaptureEmitter`, stores the buffer under the (quote-stripped) name and
emits the empty string; `assign` / `capture` bind into the bottom scope
frame and emit nothing. -/
def evalNode : Node → RState → Except RErr (String × RState)
  | .text s, st => .ok (s, st)
  | .outputN e, st => .ok (stringifyL (evalLExpr st e), st)
  | .upperN e, st => .ok (jsToUpper (jsString (evalLExpr st e)), st)
  | .mieN e, st => do
    let raw := evalLExpr st e
    let words := mieWords raw
    let (i, st1) ← metaLookupOrInit st
    let st2 := pushConstraint st1 i words
    .ok (mieSentence words, st2)
  | .assignN k e, st => .ok ("", writeBottom st k (evalLExpr st e))
  | .captureN k body, st => do
    let (out, st1) ← evalNodes body st
    .ok ("", writeBottom st1 k (.str out))
  | .secN arg body, st => do
    let name := stripQuotes arg
    let (i, st1) ← metaLookupOrInit st
    let (buf, st2) ← evalNodes body st1
    .ok ("", putSection st2 i name buf)

/-- Render a node list in order, concatenating the emitted text. -/
def evalNodes : List Node → RState → Except RErr (String × RState)
  | [], st => .ok ("", st)
  | n :: ns, st => do
    let (o1, st1) ← evalNode n st
    let (o2, st2) ← evalNodes ns st1
    .ok (o1 ++ o2, st2)
end

/-- Left curly brace. -/
def lbr : Char := Char.ofNat 123
/-- Right curly brace. -/
def rbr : Char := Char.ofNat 125
/-- Double quote. -/
def dqc : Char := Char.ofNat 34
/-- Single quote. -/
def sqc : Char := Char.ofNat 39

/-- Raw template tokens, as liquidjs tokenizes a template: literal text,
output interpolations (double braces) and tag tokens (brace-percent).
`raw` is the full source text of the token (liquidjs `token.getText()`),
`name`/`args` split a tag token at its leading identifier, with
surrounding whitespace trimmed. -/
inductive Tok where
  | lit (s : String) : Tok
  | outp (inner raw : String) : Tok
  | tag (name args raw : String) : Tok
deriving DecidableEq, Repr

/-- Scanner mode of the tokenizer: collecting literal text, or inside a
tag / output token looking for its closing delimiter. Accumulators are
reversed. -/
inductive ScanMode where
  | textM (acc : List Char) : ScanMode
  | tagM (litAcc : List Char) (acc : List Char) : ScanMode
  | outM (litAcc : List Char) (acc : List Char) : ScanMode

/-- Identifier characters of liquid tag and variable names. -/
def isIdentChar (c : Char) : Bool :=
  c.isAlpha || c.isDigit || c = '_'

/-- Build a tag token from the text between the delimiters: the name is
the leading identifier after whitespace, the rest (trimmed) is the
argument string, and `raw` is the original token text. A leading or
trailing dash (liquid whitespace control) is outside the model. -/
def mkTagTok (inner : List Char) : Except RErr Tok :=
  if inner.head? = some '-' || inner.getLast? = some '-' then
    .error (.unsupported "whitespace control")
  else
    let t := inner.dropWhile isJsWs
    let name := t.takeWhile isIdentChar
    let args := jsTrimList (t.drop name.length)
    .ok (.tag (String.mk name) (String.mk args)
      (String.mk (lbr :: '%' :: inner ++ ['%', rbr])))

/-- Build an output token from the text between the double braces. -/
def mkOutTok (inner : List Char) : Except RErr Tok :=
  if inner.head? = some '-' || inner.getLast? = some '-' then
    .error (.unsupported "whitespace control")
  else
    .ok (.outp (String.mk inner) (String.mk (lbr :: lbr :: inner ++ [rbr, rbr])))

/-- Flush the (reversed) literal-text accumulator into at most one
literal token. -/
def flushLit (acc : List Char) (rest : List Tok) : List Tok :=
  match acc with
  | [] => rest
  | _ => .lit (String.mk acc.reverse) :: rest

/-- The liquidjs template tokenizer restricted to default delimiters and
no whitespace control, as a single-pass scanner: in text mode a
`(brace)(percent)` or `(brace)(brace)` pair opens a token; inside a
token the first `(percent)(brace)` / `(brace)(brace)` pair closes it; an
opener with no closer before end of input is a fatal parse error. -/
def scanT : List Char → ScanMode → Except RErr (List Tok)
  | [], .textM acc => .ok (flushLit acc [])
  | [], .tagM _ _ => .error (.parseE "tag token not terminated")
  | [], .outM _ _ => .error (.parseE "output token not terminated")
  | [c1], .textM acc => .ok (flushLit (c1 :: acc) [])
  | c1 :: c2 :: rest, .textM acc =>
    if c1 = lbr && c2 = '%' then scanT rest (.tagM acc [])
    else if c1 = lbr && c2 = lbr then scanT rest (.outM acc [])
    else scanT (c2 :: rest) (.textM (c1 :: acc))
  | c1 :: cs, .tagM litAcc acc =>
    match c1 :: cs with
    | c1 :: c2 :: rest =>
      if c1 = '%' && c2 = rbr then do
        let tok ← mkTagTok acc.reverse
        let ts ← scanT rest (.textM [])
        .ok (flushLit litAcc (tok :: ts))
      else scanT (c2 :: rest) (.tagM litAcc (c1 :: acc))
    | _ => .error (.parseE "tag token not terminated")
  | c1 :: cs, .outM litAcc acc =>
    match c1 :: cs with
    | c1 :: c2 :: rest =>
      if c1 = rbr && c2 = rbr then do
        let tok ← mkOutTok acc.reverse
        let ts ← scanT rest (.textM [])
        .ok (flushLit litAcc (tok :: ts))
      else scanT (c2 :: rest) (.outM litAcc (c1 :: acc))
    | _ => .error (.parseE "output token not terminated")

/-- Tokenize a template string. -/
def tokenize (l : List Char) : Except RErr (List Tok) :=
  scanT l (.textM [])

/-- Split a character list at top-level occurrences of `sep`, treating
quoted spans (single or double quotes, no escapes — liquid string
literals have none) as opaque. -/
def splitTopAux (sep : Char) : List Char → Option Char → List Char → List (List Char)
  | [], _, acc => [acc.reverse]
  | c :: rest, some q, acc =>
    splitTopAux sep rest (if c = q then none else some q) (c :: acc)
  | c :: rest, none, acc =>
    if c = sep then acc.reverse :: splitTopAux sep rest none []
    else if c = dqc || c = sqc then splitTopAux sep rest (some c) (c :: acc)
    else splitTopAux sep rest none (c :: acc)

/-- Split at top-level occurrences of `sep` (outside quotes). -/
def splitTop (sep : Char) (l : List Char) : List (List Char) :=
  splitTopAux sep l none []

/-- Rejoin pieces with the separator character (inverse of `splitTop`
up to quote boundaries). -/
def joinWithChar (sep : Char) : List (List Char) → List Char
  | [] => []
  | [x] => x
  | x :: xs => x ++ sep :: joinWithChar sep xs

/-- Decimal digits to a natural number. -/
def digitsToNat (l : List Char) : Nat :=
  l.foldl (fun acc c => acc * 10 + (c.toNat - 48)) 0

/-- Parse an atomic liquid expression: a quoted string literal, an
integer literal, `true` / `false` / `nil` / `null`, or a plain variable
name. Dotted/indexed paths, ranges, floats and the special literals
`empty` / `blank` are outside the modelled fragment. -/
def parseAtom (l : List Char) : Except RErr Atom :=
  let t := jsTrimList l
  match t with
  | [] => .error (.unsupported "empty expression")
  | c :: rest =>
    if c = dqc || c = sqc then
      if rest.getLast? = some c && !(rest.dropLast.contains c) then
        .ok (.litA (.str (String.mk rest.dropLast)))
      else .error (.unsupported "string literal")
    else if c = '-' then
      if rest ≠ [] && rest.all Char.isDigit then
        .ok (.litA (.num (-(digitsToNat rest : Int))))
      else .error (.unsupported "expression syntax")
    else if c.isDigit then
      if t.all Char.isDigit then
        .ok (.litA (.num (digitsToNat t : Int)))
      else .error (.unsupported "numeric literal")
    else if t.all isIdentChar then
      match String.mk t with
      | "true" => .ok (.litA (.bool true))
      | "false" => .ok (.litA (.bool false))
      | "nil" => .ok (.litA .null)
      | "null" => .ok (.litA .null)
      | "empty" => .error (.unsupported "special literal")
      | "blank" => .error (.unsupported "special literal")
      | n => .ok (.varA n)
    else .error (.unsupported "expression syntax")

/-- liquidjs built-in filters that the source does not override and this
embedding does not model: expressions naming them are `unsupported`
rather than being treated as unknown filters (an unknown name would be
silently skipped, which would misrepresent these). -/
def liquidOtherFilterNames : List String :=
  ["abs", "append", "at_least", "at_most", "capitalize", "ceil", "concat",
   "date", "divided_by", "downcase", "escape", "escape_once", "first",
   "floor", "last", "lstrip", "map", "minus", "modulo", "newline_to_br",
   "plus", "prepend", "remove", "remove_first", "replace", "replace_first",
   "reverse", "round", "rstrip", "size", "slice", "sort_natural", "split",
   "strip", "strip_html", "strip_newlines", "times", "truncate",
   "truncatewords", "upcase", "url_decode", "url_encode", "where", "raw",
   "json"]

/-- liquidjs built-in tags that this embedding does not model:
`unsupported` at parse time rather than "not found". -/
def liquidOtherTagNames : List String :=
  ["if", "elsif", "else", "endif", "unless", "endunless", "case", "when",
   "endcase", "for", "endfor", "break", "continue", "cycle", "tablerow",
   "endtablerow", "raw", "endraw", "comment", "endcomment", "echo",
   "liquid", "include", "render", "layout", "block", "endblock",
   "increment", "decrement", "ifchanged", "endifchanged"]

/-- Parse one filter-chain segment `name` or `name: a, b`. -/
def parseFilterSeg (l : List Char) : Except RErr FilterCall := do
  let pieces := splitTop ':' l
  match pieces with
  | [] => .error (.unsupported "empty filter")
  | namePart :: rest =>
    let nameT := jsTrimList namePart
    if nameT = [] || !(nameT.all isIdentChar) then
      .error (.unsupported "filter syntax")
    else
      let fname := String.mk nameT
      if fname ∈ liquidOtherFilterNames then
        .error (.unsupported ("liquidjs built-in filter not modelled: " ++ fname))
      else
        match rest with
        | [] => .ok ⟨fname, []⟩
        | _ => do
          let argStr := joinWithChar ':' rest
          let args ← (splitTop ',' argStr).mapM parseAtom
          .ok ⟨fname, args⟩

/-- Parse a filtered value expression `atom | f1: args | f2 ...`. -/
def parseLExprChars (l : List Char) : Except RErr LExpr := do
  match splitTop '|' l with
  | [] => .error (.unsupported "empty expression")
  | base :: fsegs => do
    let a ← parseAtom base
    let fs ← fsegs.mapM parseFilterSeg
    .ok ⟨a, fs⟩

/-- Parse a bare identifier (the `capture` variable name). -/
def parseIdent (l : List Char) : Except RErr String :=
  let t := jsTrimList l
  if t ≠ [] && t.all isIdentChar then .ok (String.mk t)
  else .error (.unsupported "identifier expected")

/-- Parse `k = expr` (the `assign` tag's argument string). -/
def parseAssignArgs (l : List Char) : Except RErr (String × LExpr) := do
  match splitTop '=' l with
  | k :: rest@(_ :: _) => do
    let name ← parseIdent k
    let e ← parseLExprChars (joinWithChar '=' rest)
    .ok (name, e)
  | _ => .error (.unsupported "assign syntax")

/-- An open block tag awaiting its end tag during parsing, with the raw
text of its opening token (used in the "not closed" error). -/
inductive OpenBlock where
  | secB (arg raw : String) : OpenBlock
  | capB (k raw : String) : OpenBlock

/-- The raw opening-token text of an open block. -/
def OpenBlock.raw : OpenBlock → String
  | .secB _ r => r
  | .capB _ r => r

/-- Parser state: `cur` is the node list of the innermost open block (or
of the top level), `stack` holds the enclosing open blocks, innermost
first, each with the nodes accumulated before it opened. This models the
nested `parseStream` loops of liquidjs block-tag constructors
(`SectionTag` and `CaptureTag` consume tokens until their end tag). -/
structure PState where
  cur : List Node
  stack : List (OpenBlock × List Node)

/-- Process one token. An end tag whose innermost open block does not
match is an unknown tag (liquidjs looks it up in the tag table and
fails); a tag name that is neither one of the handled tags nor a
liquidjs built-in is the fatal `tag "name" not found` parse error. -/
def stepTok (st : PState) : Tok → Except RErr PState
  | .lit s => .ok { st with cur := st.cur ++ [.text s] }
  | .outp inner _ => do
    let e ← parseLExprChars inner.data
    .ok { st with cur := st.cur ++ [.outputN e] }
  | .tag name args raw =>
    if name = "section" then
      .ok { cur := [], stack := (.secB args raw, st.cur) :: st.stack }
    else if name = "endsection" then
      match st.stack with
      | (.secB arg _, saved) :: rest =>
        .ok { cur := saved ++ [.secN arg st.cur], stack := rest }
      | _ => .error (.parseE "tag \"endsection\" not found")
    else if name = "capture" then do
      let k ← parseIdent args.data
      .ok { cur := [], stack := (.capB k raw, st.cur) :: st.stack }
    else if name = "endcapture" then
      match st.stack with
      | (.capB k _, saved) :: rest =>
        .ok { cur := saved ++ [.captureN k st.cur], stack := rest }
      | _ => .error (.parseE "tag \"endcapture\" not found")
    else if name = "assign" then do
      let (k, e) ← parseAssignArgs args.data
      .ok { st with cur := st.cur ++ [.assignN k e] }
    else if name = "upper" then do
      let e ← parseLExprChars args.data
      .ok { st with cur := st.cur ++ [.upperN e] }
    else if name = "must_include_each" then do
      let e ← parseLExprChars args.data
      .ok { st with cur := st.cur ++ [.mieN e] }
    else if name ∈ liquidOtherTagNames then
      .error (.unsupported ("liquidjs built-in tag not modelled: " ++ name))
    else
      .error (.parseE ("tag \"" ++ name ++ "\" not found"))

/-- Process a token list left to right. -/
def stepToks : List Tok → PState → Except RErr PState
  | [], st => .ok st
  | t :: ts, st => do
    let st' ← stepTok st t
    stepToks ts st'

/-- End of input: an open block is the fatal
`tag (raw opening token) not closed` parse error, raised for the
innermost open block (its parse stream is the one consuming tokens when
the `end` event fires in `SectionTag`'s constructor). -/
def finishP (st : PState) : Except RErr (List Node) :=
  match st.stack with
  | [] => .ok st.cur
  | (b, _) :: _ => .error (.parseE ("tag " ++ b.raw ++ " not closed"))

/-- Parse a token list into a template tree. -/
def parseToks (toks : List Tok) : Except RErr (List Node) := do
  finishP (← stepToks toks ⟨[], []⟩)

/-- Parse a template string (tokenize, then parse). -/
def parseTemplate (tmpl : String) : Except RErr (List Node) := do
  parseToks (← tokenize tmpl.data)

/-- Initial render state of `TemplateParser.render`: the caller's
variables object is the `environments` of the liquidjs `Context`, the
scope stack has its one initial empty frame, and no metadata record
exists yet. -/
def initRender (vars : List (String × LValue)) : RState :=
  ⟨vars, [[]], []⟩

/-- Initial render state of `TemplateParser.renderWithMeta`: the scope
handed to `parseAndRender` is
`\x7b ...variables, __promptengMeta: meta \x7d` — a copy of the caller's
variables with the freshly created metadata record bound last (so it
overrides any caller-supplied key of that name); the fresh record is
store slot `0`. -/
def initRenderWM (vars : List (String × LValue)) : RState :=
  ⟨setKey vars pk (.metaRef 0), [[]], [emptyMeta]⟩

/-- Evaluate a parsed template as `render` does (text only). -/
def evalR (ns : List Node) (vars : List (String × LValue)) :
    Except RErr (String × RState) :=
  evalNodes ns (initRender vars)

/-- The result record of `renderWithMeta`, flattened as the engine
helpers expose it: `\x7b text, sections, constraints \x7d`. -/
structure RWMResult where
  text : String
  constraints : List Constraint
  sections : List (String × String)
deriving DecidableEq, Repr

/-- Evaluate a parsed template as `renderWithMeta` does and read the
returned metadata back out of store slot `0` (the record the call
created; the source returns the very `meta` object it allocated). -/
def evalWM (ns : List Node) (vars : List (String × LValue)) :
    Except RErr RWMResult :=
  match evalNodes ns (initRenderWM vars) with
  | .error e => .error e
  | .ok (text, st) =>
    let m := st.metas.headD emptyMeta
    .ok ⟨text, m.constraints, m.sections⟩

/-- `render(template, variables)` on a fresh engine (no parse cache):
parse, then evaluate; only the primary text is returned. -/
def render0 (tmpl : String) (vars : List (String × LValue)) :
    Except RErr String :=
  match parseTemplate tmpl with
  | .error e => .error e
  | .ok ns =>
    match evalR ns vars with
    | .error e => .error e
    | .ok (text, _) => .ok text

/-- `renderWithMeta(template, variables)` on a fresh engine. -/
def renderWithMeta0 (tmpl : String) (vars : List (String × LValue)) :
    Except RErr RWMResult :=
  match parseTemplate tmpl with
  | .error e => .error e
  | .ok ns => evalWM ns vars

/-- The mutable state of one `TemplateParser` instance between calls:
the parse cache (`cache: true` in the engine options) mapping template
text to its parsed tree. The filter/tag registries are fixed to the
constructor's registrations, which is the configuration all claims are
about. -/
structure TPState where
  cache : List (String × List Node)

/-- Parse with the instance cache: a hit returns the cached tree and
leaves the cache unchanged; a miss parses and caches the tree on
success (a parse error propagates before anything is cached). -/
def parseCached (p : TPState) (tmpl : String) :
    Except RErr (List Node) × TPState :=
  match lookupKey p.cache tmpl with
  | some ns => (.ok ns, p)
  | none =>
    match parseTemplate tmpl with
    | .ok ns => (.ok ns, ⟨setKey p.cache tmpl ns⟩)
    | .error e => (.error e, p)

/-- `render` on an engine instance, threading the parse cache. -/
def renderC (p : TPState) (tmpl : String) (vars : List (String × LValue)) :
    Except RErr String × TPState :=
  match parseCached p tmpl with
  | (.error e, p') => (.error e, p')
  | (.ok ns, p') =>
    match evalR ns vars with
    | .error e => (.error e, p')
    | .ok (text, _) => (.ok text, p')

/-- `renderWithMeta` on an engine instance, threading the parse cache. -/
def renderWithMetaC (p : TPState) (tmpl : String)
    (vars : List (String × LValue)) : Except RErr RWMResult × TPState :=
  match parseCached p tmpl with
  | (.error e, p') => (.error e, p')
  | (.ok ns, p') => (evalWM ns vars, p')

/-- Cache validity: every cached tree is what parsing its key yields.
Holds of the fresh instance (empty cache) and is preserved by every
render call. -/
def WFCache (p : TPState) : Prop :=
  ∀ t ns, lookupKey p.cache t = some ns → parseTemplate t = .ok ns

theorem WFCache_empty : WFCache ⟨[]⟩ := by
  intro t ns h
  simp [lookupKey] at h

theorem parseCached_fst {p : TPState} (hp : WFCache p) (tmpl : String) :
    (parseCached p tmpl).1 = parseTemplate tmpl := by
  unfold parseCached
  cases hc : lookupKey p.cache tmpl with
  | some ns => simp [hp tmpl ns hc]
  | none =>
    cases hpt : parseTemplate tmpl with
    | ok ns => simp
    | error e => simp

theorem parseCached_wf {p : TPState} (hp : WFCache p) (tmpl : String) :
    WFCache (parseCached p tmpl).2 := by
  unfold parseCached
  cases hc : lookupKey p.cache tmpl with
  | some ns => simpa using hp
  | none =>
    cases hpt : parseTemplate tmpl with
    | ok ns =>
      simp only
      intro t ns' h
      by_cases ht : t = tmpl
      · subst ht
        rw [lookupKey_setKey_self] at h
        cases h
        exact hpt
      · rw [lookupKey_setKey_ne _ _ _ _ ht] at h
        exact hp t ns' h
    | error e => simpa using hp

theorem renderWithMetaC_fst {p : TPState} (hp : WFCache p) (tmpl : String)
    (vars : List (String × LValue)) :
    (renderWithMetaC p tmpl vars).1 = renderWithMeta0 tmpl vars := by
  unfold renderWithMetaC renderWithMeta0
  have h1 := parseCached_fst hp tmpl
  cases hc : parseCached p tmpl with
  | mk r p' =>
    rw [hc] at h1
    cases r with
    | error e => simp at h1; rw [← h1]
    | ok ns => simp at h1; rw [← h1]

theorem renderWithMetaC_wf {p : TPState} (hp : WFCache p) (tmpl : String)
    (vars : List (String × LValue)) :
    WFCache (renderWithMetaC p tmpl vars).2 := by
  unfold renderWithMetaC
  have h2 := parseCached_wf hp tmpl
  cases hc : parseCached p tmpl with
  | mk r p' =>
    rw [hc] at h2
    cases r with
    | error e => simpa using h2
    | ok ns =>
      cases hev : evalWM ns vars <;> simpa using h2

theorem renderC_fst {p : TPState} (hp : WFCache p) (tmpl : String)
    (vars : List (String × LValue)) :
    (renderC p tmpl vars).1 = render0 tmpl vars := by
  unfold renderC render0
  have h1 := parseCached_fst hp tmpl
  cases hc : parseCached p tmpl with
  | mk r p' =>
    rw [hc] at h1
    cases r with
    | error e => simp at h1; rw [← h1]
    | ok ns =>
      simp at h1
      rw [← h1]
      cases hev : evalR ns vars with
      | error e => simp [hev]
      | ok pr => obtain ⟨text, st⟩ := pr; simp [hev]

theorem renderC_wf {p : TPState} (hp : WFCache p) (tmpl : String)
    (vars : List (String × LValue)) :
    WFCache (renderC p tmpl vars).2 := by
  unfold renderC
  have h2 := parseCached_wf hp tmpl
  cases hc : parseCached p tmpl with
  | mk r p' =>
    rw [hc] at h2
    cases r with
    | error e => simpa using h2
    | ok ns =>
      cases hev : evalR ns vars with
      | error e => simpa [hev] using h2
      | ok pr => obtain ⟨text, st⟩ := pr; simpa [hev] using h2

/-- `render` including its final evaluation state (the primary text is
`render0`; the state witnesses what the call did to the environments
object, which in `render` is the caller's variables object itself). -/
def render0Run (tmpl : String) (vars : List (String × LValue)) :
    Except RErr (String × RState) :=
  match parseTemplate tmpl with
  | .error e => .error e
  | .ok ns => evalR ns vars

/-- `renderWithMeta` including its final evaluation state. -/
def renderWithMeta0Run (tmpl : String) (vars : List (String × LValue)) :
    Except RErr (String × RState) :=
  match parseTemplate tmpl with
  | .error e => .error e
  | .ok ns => evalNodes ns (initRenderWM vars)

/-- The tag names the engine instance handles: the three custom tags the
constructor registers plus the `assign` / `capture` block machinery this
model covers (end tags are recognized positionally). -/
def handledTagNames : List String :=
  ["section", "endsection", "capture", "endcapture", "assign", "upper",
   "must_include_each"]

/-- A token that is not a tag token and steps without error: literal
text, or an output interpolation whose expression parses. -/
def nonTagOk : Tok → Prop
  | .lit _ => True
  | .outp inner _ => ∃ e, parseLExprChars inner.data = .ok e
  | .tag _ _ _ => False

/-- Is this node literal text? -/
def isTextB : Node → Bool
  | .text _ => true
  | _ => false

/-- Top-level node shape of the claim "entire body is section blocks plus
literal whitespace/text": a text node, or a section block whose body is
literal text. -/
def secOrTextB : Node → Bool
  | .text _ => true
  | .secN _ body => body.all isTextB
  | _ => false

/-- The literal text of a node list: text nodes contribute themselves,
every other node contributes nothing (in particular a section block
emits the empty string inline). -/
def topTexts : List Node → String
  | [] => ""
  | n :: ns =>
    (match n with
      | .text s => s
      | _ => "") ++ topTexts ns

/-- The section map accumulated left to right over a node list of
section blocks: each block stores its rendered (here: literal) body text
under its quote-stripped name, last write winning. -/
def secMapAcc : List Node → List (String × String) → List (String × String)
  | [], acc => acc
  | .secN arg body :: ns, acc =>
    secMapAcc ns (setKey acc (stripQuotes arg) (topTexts body))
  | _ :: ns, acc => secMapAcc ns acc

/-- Does this atom avoid reading the reserved metadata key? -/
def atomNoPk : Atom → Bool
  | .varA n => n ≠ pk
  | .litA _ => true

/-- Does this expression avoid the reserved metadata key? -/
def exprNoPk (e : LExpr) : Bool :=
  atomNoPk e.base && e.filters.all (fun fc => fc.args.all atomNoPk)

mutual
/-- Node predicate for the render / renderWithMeta agreement theorem:
no `section` directive, and no reference to the reserved key
`__promptengMeta` (neither read in an expression nor written by
`assign` / `capture`). `must_include_each` is allowed: its deliberate
metadata access is handled by the simulation argument. -/
def nodeOkB : Node → Bool
  | .text _ => true
  | .outputN e => exprNoPk e
  | .upperN e => exprNoPk e
  | .mieN e => exprNoPk e
  | .assignN k e => decide (k ≠ pk) && exprNoPk e
  | .captureN k body => decide (k ≠ pk) && nodesOkB body
  | .secN _ _ => false

/-- `nodeOkB` over a list. -/
def nodesOkB : List Node → Bool
  | [] => true
  | n :: ns => nodeOkB n && nodesOkB ns
end

/-- Simulation relation between the render state of a `render` call
(`sr`) and of a `renderWithMeta` call (`sw`) on the same template and
caller variables `vars` (which do not bind the reserved key): the
environments differ exactly by the injected metadata binding; the scope
stacks agree except that the `render` side may carry one extra top frame
holding only the lazily created metadata binding; no frame of the
`renderWithMeta` side binds the reserved key; and every metadata record
on the `renderWithMeta` side still has an empty section map (no
`section` directive has run). -/
def Sim (vars : List (String × LValue)) (sr sw : RState) : Prop :=
  lookupKey vars pk = none ∧
  sr.envs = vars ∧
  sw.envs = setKey vars pk (.metaRef 0) ∧
  (sr.scopes = sw.scopes ∨
    ∃ j, sr.scopes = [(pk, LValue.metaRef j)] :: sw.scopes) ∧
  (∀ fr ∈ sw.scopes, lookupKey fr pk = none) ∧
  sw.scopes ≠ [] ∧
  sw.metas ≠ [] ∧
  (∀ m ∈ sw.metas, m.sections = [])

theorem pushConstraint_envs (st : RState) (i : Nat) (w : List String) :
    (pushConstraint st i w).envs = st.envs := rfl

theorem putSection_envs (st : RState) (i : Nat) (name text : String) :
    (putSection st i name text).envs = st.envs := rfl

theorem writeBottom_envs (st : RState) (k : String) (v : LValue) :
    (writeBottom st k v).envs = st.envs := rfl

theorem metaLookupOrInit_envs {st : RState} {i : Nat} {st1 : RState}
    (h : metaLookupOrInit st = .ok (i, st1)) : st1.envs = st.envs := by
  unfold metaLookupOrInit at h
  split at h
  · injection h with h1
    injection h1 with hi hst
    rw [← hst]
  · split at h
    · cases h
    · injection h with h1
      injection h1 with hi hst
      rw [← hst]

mutual
theorem evalNode_envs (n : Node) : ∀ (st : RState) (out : String) (st' : RState),
    evalNode n st = .ok (out, st') → st'.envs = st.envs := by
  intro st out st' h
  cases n with
  | text s =>
    simp [evalNode] at h
    rw [← h.2]
  | outputN e =>
    simp [evalNode] at h
    rw [← h.2]
  | upperN e =>
    simp [evalNode] at h
    rw [← h.2]
  | mieN e =>
    simp only [evalNode, bind, Except.bind] at h
    cases hm : metaLookupOrInit st with
    | error e2 => rw [hm] at h; cases h
    | ok p =>
      obtain ⟨i, st1⟩ := p
      rw [hm] at h
      simp only at h
      injection h with h1
      injection h1 with ho hst
      rw [← hst, pushConstraint_envs, metaLookupOrInit_envs hm]
  | assignN k e =>
    simp [evalNode] at h
    rw [← h.2, writeBottom_envs]
  | captureN k body =>
    simp only [evalNode, bind, Except.bind] at h
    cases hb : evalNodes body st with
    | error e2 => rw [hb] at h; cases h
    | ok p =>
      obtain ⟨o1, st1⟩ := p
      rw [hb] at h
      simp only at h
      injection h with h1
      injection h1 with ho hst
      rw [← hst, writeBottom_envs]
      exact evalNodes_envs body st o1 st1 hb
  | secN arg body =>
    simp only [evalNode, bind, Except.bind] at h
    cases hm : metaLookupOrInit st with
    | error e2 => rw [hm] at h; cases h
    | ok p =>
      obtain ⟨i, st1⟩ := p
      rw [hm] at h
      simp only at h
      cases hb : evalNodes body st1 with
      | error e2 => rw [hb] at h; cases h
      | ok p2 =>
        obtain ⟨buf, st2⟩ := p2
        rw [hb] at h
        simp only at h
        injection h with h1
        injection h1 with ho hst
        rw [← hst, putSection_envs]
        rw [evalNodes_envs body st1 buf st2 hb, metaLookupOrInit_envs hm]

theorem evalNodes_envs (ns : List Node) : ∀ (st : RState) (out : String) (st' : RState),
    evalNodes ns st = .ok (out, st') → st'.envs = st.envs := by
  intro st out st' h
  cases ns with
  | nil =>
    simp [evalNodes] at h
    rw [← h.2]
  | cons n rest =>
    simp only [evalNodes, bind, Except.bind] at h
    cases h1 : evalNode n st with
    | error e2 => rw [h1] at h; cases h
    | ok p =>
      obtain ⟨o1, st1⟩ := p
      rw [h1] at h
      simp only at h
      cases h2 : evalNodes rest st1 with
      | error e2 => rw [h2] at h; cases h
      | ok p2 =>
        obtain ⟨o2, st2⟩ := p2
        rw [h2] at h
        simp only at h
        injection h with hp
        injection hp with ho hst
        rw [← hst]
        rw [evalNodes_envs rest st1 o2 st2 h2, evalNode_envs n st o1 st1 h1]
end

/-- C4: `render` and `renderWithMeta` never mutate the caller's variable
map. In `render`, the caller's map is the `environments` object of the
evaluation itself, and evaluation preserves it (directive writes go to
scope frames or to the metadata store, never to the environments); in
`renderWithMeta`, the evaluation runs on a spread copy
(`\x7b ...variables, __promptengMeta: meta \x7d`) and preserves that
copy, so the caller's map is doubly untouched — in both calls no key is
added, removed, or rebound, including under `assign` and `capture`. -/
theorem render_preserves_caller_variables
    (tmpl : String) (vars : List (String × LValue)) :
    (∀ out st', render0Run tmpl vars = .ok (out, st') → st'.envs = vars) ∧
    (∀ out st', renderWithMeta0Run tmpl vars = .ok (out, st') →
      st'.envs = setKey vars pk (.metaRef 0)) := by
  constructor
  · intro out st' h
    unfold render0Run at h
    cases hp : parseTemplate tmpl with
    | error e => rw [hp] at h; cases h
    | ok ns =>
      rw [hp] at h
      exact evalNodes_envs ns _ out st' h
  · intro out st' h
    unfold renderWithMeta0Run at h
    cases hp : parseTemplate tmpl with
    | error e => rw [hp] at h; cases h
    | ok ns =>
      rw [hp] at h
      exact evalNodes_envs ns _ out st' h


/-- Witness for C4 at a template exercising both `assign` and
`capture`: the final environments object equals the input map. -/
theorem render_preserves_caller_variables_witness :
    render0Run "\x7b% assign x = 1 %\x7d\x7b% capture y %\x7dhi\x7b% endcapture %\x7d"
        [("a", LValue.str "b")] =
      .ok ("", ⟨[("a", LValue.str "b")],
        [[("x", LValue.num 1), ("y", LValue.str "hi")]], []⟩) ∧
    RState.envs ⟨[("a", LValue.str "b")],
        [[("x", LValue.num 1), ("y", LValue.str "hi")]], []⟩ =
      [("a", LValue.str "b")] :=
  ⟨rfl,
    (render_preserves_caller_variables
      "\x7b% assign x = 1 %\x7d\x7b% capture y %\x7dhi\x7b% endcapture %\x7d"
      [("a", LValue.str "b")]).1 "" _ rfl⟩

theorem stepToks_append (a b : List Tok) (st : PState) :
    stepToks (a ++ b) st =
      match stepToks a st with
      | .error e => .error e
      | .ok st1 => stepToks b st1 := by
  induction a generalizing st with
  | nil => simp [stepToks]
  | cons t ts ih =>
    simp only [List.cons_append, stepToks, bind, Except.bind]
    cases h : stepTok st t with
    | error e => simp
    | ok st1 => simp [ih]

theorem stepToks_nonTag (post : List Tok) :
    ∀ st : PState, (∀ t ∈ post, nonTagOk t) →
      ∃ cur', stepToks post st = .ok ⟨cur', st.stack⟩ := by
  induction post with
  | nil => intro st _; exact ⟨st.cur, rfl⟩
  | cons t ts ih =>
    intro st h
    have ht := h t (List.mem_cons_self t ts)
    have hts : ∀ t' ∈ ts, nonTagOk t' := fun t' h' => h t' (List.mem_cons_of_mem _ h')
    cases t with
    | lit s =>
      simp only [stepToks, stepTok, bind, Except.bind]
      exact ih { st with cur := st.cur ++ [.text s] } hts
    | outp inner raw =>
      obtain ⟨e, he⟩ := ht
      simp only [stepToks, stepTok, bind, Except.bind, he]
      exact ih { st with cur := st.cur ++ [.outputN e] } hts
    | tag name args raw => exact absurd ht (by simp [nonTagOk])

/-- A `section` tag whose remaining input holds no tag token at all ends
the template with that block still open, so parsing fails with the
`not closed` error naming the raw opening token. -/
theorem parseTemplate_section_unclosed (tmpl : String) (pre post : List Tok)
    (args raw : String) (st1 : PState)
    (htok : tokenize tmpl.data = .ok (pre ++ Tok.tag "section" args raw :: post))
    (hpre : stepToks pre ⟨[], []⟩ = .ok st1)
    (hpost : ∀ t ∈ post, nonTagOk t) :
    parseTemplate tmpl = .error (.parseE ("tag " ++ raw ++ " not closed")) := by
  have hstep : stepTok st1 (Tok.tag "section" args raw) =
      .ok ⟨[], (OpenBlock.secB args raw, st1.cur) :: st1.stack⟩ := rfl
  obtain ⟨cur', hc⟩ :=
    stepToks_nonTag post ⟨[], (OpenBlock.secB args raw, st1.cur) :: st1.stack⟩ hpost
  unfold parseTemplate
  simp only [bind, Except.bind, htok]
  unfold parseToks
  simp only [bind, Except.bind]
  rw [stepToks_append]
  simp only [hpre]
  simp only [stepToks, bind, Except.bind, hstep, hc]
  rfl

/-- A tag token whose name is neither a handled tag nor a modelled
liquidjs built-in makes parsing fail with `tag "name" not found`,
whatever came before (as long as the prefix itself parsed). -/
theorem parseTemplate_unknown_tag (tmpl : String) (pre post : List Tok)
    (nm args raw : String) (st1 : PState)
    (htok : tokenize tmpl.data = .ok (pre ++ Tok.tag nm args raw :: post))
    (hpre : stepToks pre ⟨[], []⟩ = .ok st1)
    (h1 : nm ∉ handledTagNames) (h2 : nm ∉ liquidOtherTagNames) :
    parseTemplate tmpl = .error (.parseE ("tag \"" ++ nm ++ "\" not found")) := by
  have hs : ¬nm = "section" := fun h => h1 (by simp [handledTagNames, h])
  have hes : ¬nm = "endsection" := fun h => h1 (by simp [handledTagNames, h])
  have hcc : ¬nm = "capture" := fun h => h1 (by simp [handledTagNames, h])
  have hec : ¬nm = "endcapture" := fun h => h1 (by simp [handledTagNames, h])
  have ha : ¬nm = "assign" := fun h => h1 (by simp [handledTagNames, h])
  have hu : ¬nm = "upper" := fun h => h1 (by simp [handledTagNames, h])
  have hm : ¬nm = "must_include_each" := fun h => h1 (by simp [handledTagNames, h])
  have hstep : stepTok st1 (Tok.tag nm args raw) =
      .error (.parseE ("tag \"" ++ nm ++ "\" not found")) := by
    simp only [stepTok, if_neg hs, if_neg hes, if_neg hcc, if_neg hec,
      if_neg ha, if_neg hu, if_neg hm, if_neg h2]
  unfold parseTemplate
  simp only [bind, Except.bind, htok]
  unfold parseToks
  simp only [bind, Except.bind]
  rw [stepToks_append]
  simp only [hpre]
  simp only [stepToks, bind, Except.bind, hstep]

/-- C6: a template containing a `section` block with no matching
`endsection` makes both `render` and `renderWithMeta` fail with a parse
error whose message names the unclosed tag by its raw source text; the
render is aborted entirely — an error is the only outcome, no partial
output is returned. Quantification: any template whose token stream puts
a `section` tag after a cleanly parsing prefix, followed only by
non-tag tokens (so no end tag can close the block). -/
theorem section_unclosed_aborts (tmpl : String) (vars : List (String × LValue))
    (pre post : List Tok) (args raw : String) (st1 : PState)
    (htok : tokenize tmpl.data = .ok (pre ++ Tok.tag "section" args raw :: post))
    (hpre : stepToks pre ⟨[], []⟩ = .ok st1)
    (hpost : ∀ t ∈ post, nonTagOk t) :
    render0 tmpl vars = .error (.parseE ("tag " ++ raw ++ " not closed")) ∧
    renderWithMeta0 tmpl vars = .error (.parseE ("tag " ++ raw ++ " not closed")) := by
  have hp := parseTemplate_section_unclosed tmpl pre post args raw st1 htok hpre hpost
  constructor
  · unfold render0
    rw [hp]
  · unfold renderWithMeta0
    rw [hp]

/-- Witness for C6 at the template `A(open)section x(close)B`. -/
theorem section_unclosed_aborts_witness :
    tokenize "A\x7b% section x %\x7dB".data =
      .ok ([Tok.lit "A"] ++
        Tok.tag "section" "x" "\x7b% section x %\x7d" :: [Tok.lit "B"]) ∧
    stepToks [Tok.lit "A"] ⟨[], []⟩ = .ok ⟨[Node.text "A"], []⟩ ∧
    render0 "A\x7b% section x %\x7dB" [] =
      .error (.parseE ("tag " ++ "\x7b% section x %\x7d" ++ " not closed")) :=
  ⟨rfl, rfl,
    (section_unclosed_aborts "A\x7b% section x %\x7dB" [] [Tok.lit "A"]
      [Tok.lit "B"] "x" "\x7b% section x %\x7d" ⟨[Node.text "A"], []⟩ rfl rfl
      (by intro t ht
          simp only [List.mem_singleton] at ht
          subst ht
          trivial)).1⟩

/-- C5 as amended: an unknown directive name is a fatal parse-time error
for both entry points, but an unknown filter name is not an error — the
engine is constructed without `strictFilters`, whose liquidjs default
(`false`) silently skips undefined filters, so the value passes through
the unknown filter unchanged. -/
theorem unknown_directive_fatal_unknown_filter_skipped :
    (∀ (tmpl : String) (vars : List (String × LValue)) (pre post : List Tok)
      (nm args raw : String) (st1 : PState),
      tokenize tmpl.data = .ok (pre ++ Tok.tag nm args raw :: post) →
      stepToks pre ⟨[], []⟩ = .ok st1 →
      nm ∉ handledTagNames → nm ∉ liquidOtherTagNames →
      render0 tmpl vars = .error (.parseE ("tag \"" ++ nm ++ "\" not found")) ∧
      renderWithMeta0 tmpl vars =
        .error (.parseE ("tag \"" ++ nm ++ "\" not found"))) ∧
    (∀ (nm : String) (v : LValue) (args : List LValue),
      nm ∉ builtinFilterNames → applyFilter nm v args = v) := by
  constructor
  · intro tmpl vars pre post nm args raw st1 htok hpre h1 h2
    have hp := parseTemplate_unknown_tag tmpl pre post nm args raw st1 htok hpre h1 h2
    constructor
    · unfold render0
      rw [hp]
    · unfold renderWithMeta0
      rw [hp]
  · intro nm v args h
    have h1 : ¬nm = "join" := fun hh => h (by simp [builtinFilterNames, hh])
    have h2 : ¬nm = "uniq" := fun hh => h (by simp [builtinFilterNames, hh])
    have h3 : ¬nm = "default" := fun hh => h (by simp [builtinFilterNames, hh])
    have h4 : ¬nm = "length" := fun hh => h (by simp [builtinFilterNames, hh])
    have h5 : ¬nm = "lower" := fun hh => h (by simp [builtinFilterNames, hh])
    have h6 : ¬nm = "upper" := fun hh => h (by simp [builtinFilterNames, hh])
    have h7 : ¬nm = "compact" := fun hh => h (by simp [builtinFilterNames, hh])
    have h8 : ¬nm = "sort" := fun hh => h (by simp [builtinFilterNames, hh])
    simp only [applyFilter, if_neg h1, if_neg h2, if_neg h3, if_neg h4,
      if_neg h5, if_neg h6, if_neg h7, if_neg h8]

/-- Witness for C5: the unknown directive `bogus` aborts the render with
the `not found` parse error, and the unknown filter name `nosuchfilter`
passes an example value through unchanged. -/
theorem unknown_directive_fatal_unknown_filter_skipped_witness :
    tokenize "\x7b% bogus %\x7d".data =
      .ok ([] ++ Tok.tag "bogus" "" "\x7b% bogus %\x7d" :: []) ∧
    render0 "\x7b% bogus %\x7d" [] =
      .error (.parseE ("tag \"" ++ "bogus" ++ "\" not found")) ∧
    applyFilter "nosuchfilter" (.str "hi") [] = .str "hi" :=
  ⟨rfl,
    (unknown_directive_fatal_unknown_filter_skipped.1 "\x7b% bogus %\x7d" []
      [] [] "bogus" "" "\x7b% bogus %\x7d" ⟨[], []⟩ rfl rfl (by decide)
      (by decide)).1,
    unknown_directive_fatal_unknown_filter_skipped.2 "nosuchfilter"
      (.str "hi") [] (by decide)⟩

/-- Counterexample to C5 as stated: `nosuchfilter` is neither a
registered filter nor a liquidjs built-in, yet a template applying it
renders successfully (the filter is silently dropped, the value passes
through) instead of failing with a parse error. -/
theorem unknown_filter_not_fatal_counterexample :
    "nosuchfilter" ∉ builtinFilterNames ∧
    "nosuchfilter" ∉ liquidOtherFilterNames ∧
    renderWithMeta0 "\x7b\x7b x | nosuchfilter \x7d\x7d" [("x", .str "hi")] =
      .ok ⟨"hi", [], []⟩ ∧
    render0 "\x7b\x7b x | nosuchfilter \x7d\x7d" [("x", .str "hi")] = .ok "hi" :=
  ⟨by decide, by decide, rfl, rfl⟩

/-- C7: determinism / idempotence. On one engine instance with a valid
parse cache, re-evaluating the identical `(templateText, variables)`
pair produces the identical result — for `renderWithMeta` the whole
`\x7b text, sections, constraints \x7d` record (byte-identical text,
same section keys and strings, identical constraints list), for
`render` the text. The second call may hit the parse cache the first
call filled; cache validity makes that hit return exactly the parse
result, so the outcome is unchanged. -/
theorem rerender_deterministic (p : TPState) (tmpl : String)
    (vars : List (String × LValue)) (hp : WFCache p) :
    (renderWithMetaC ((renderWithMetaC p tmpl vars).2) tmpl vars).1 =
      (renderWithMetaC p tmpl vars).1 ∧
    (renderC ((renderC p tmpl vars).2) tmpl vars).1 =
      (renderC p tmpl vars).1 := by
  constructor
  · rw [renderWithMetaC_fst (renderWithMetaC_wf hp tmpl vars) tmpl vars,
      renderWithMetaC_fst hp tmpl vars]
  · rw [renderC_fst (renderC_wf hp tmpl vars) tmpl vars,
      renderC_fst hp tmpl vars]

/-- Witness for C7 on a fresh engine: the first call fills the cache,
the repeat call returns the byte-identical record. -/
theorem rerender_deterministic_witness :
    WFCache ⟨[]⟩ ∧
    (renderWithMetaC ⟨[]⟩ "\x7b% must_include_each \x22a,b\x22 %\x7dT" []).1 =
      .ok ⟨"IMPORTANT: You MUST use EACH of these words at least once: a, b.T",
        [⟨"must_include_each", ["a", "b"]⟩], []⟩ ∧
    (renderWithMetaC
        ((renderWithMetaC ⟨[]⟩ "\x7b% must_include_each \x22a,b\x22 %\x7dT" []).2)
        "\x7b% must_include_each \x22a,b\x22 %\x7dT" []).1 =
      (renderWithMetaC ⟨[]⟩ "\x7b% must_include_each \x22a,b\x22 %\x7dT" []).1 :=
  ⟨WFCache_empty, by rfl,
    (rerender_deterministic ⟨[]⟩ "\x7b% must_include_each \x22a,b\x22 %\x7dT" []
      WFCache_empty).1⟩

/-- C3: isolation of render calls. On one engine instance (valid cache),
the full result of each of two sequential `renderWithMeta` calls —
however the calls are ordered or interleaved with other calls, since the
only threaded state is the parse cache — equals the state-free
`renderWithMeta0` of that call's own template and variables. Each call's
sections and constraints are therefore populated exactly by that call's
own evaluation: nothing recorded in one call can appear in the other's
result, and the returned metadata records are freshly built values per
call (`initRenderWM` allocates store slot 0 anew for every call). -/
theorem renders_isolated (p : TPState) (t1 t2 : String)
    (v1 v2 : List (String × LValue)) (hp : WFCache p) :
    (renderWithMetaC p t1 v1).1 = renderWithMeta0 t1 v1 ∧
    (renderWithMetaC ((renderWithMetaC p t1 v1).2) t2 v2).1 =
      renderWithMeta0 t2 v2 ∧
    WFCache ((renderWithMetaC ((renderWithMetaC p t1 v1).2) t2 v2).2) :=
  ⟨renderWithMetaC_fst hp t1 v1,
    renderWithMetaC_fst (renderWithMetaC_wf hp t1 v1) t2 v2,
    renderWithMetaC_wf (renderWithMetaC_wf hp t1 v1) t2 v2⟩

/-- Witness for C3: a first call that records a constraint, then a
second call on the same engine with a different template and variables:
the second call's result carries no trace of the first call's
constraint. -/
theorem renders_isolated_witness :
    WFCache ⟨[]⟩ ∧
    (renderWithMetaC ⟨[]⟩ "\x7b% must_include_each \x22a\x22 %\x7d" []).1 =
      .ok ⟨"IMPORTANT: You MUST use EACH of these words at least once: a.",
        [⟨"must_include_each", ["a"]⟩], []⟩ ∧
    (renderWithMetaC ((renderWithMetaC ⟨[]⟩
        "\x7b% must_include_each \x22a\x22 %\x7d" []).2)
        "plain \x7b\x7b x \x7d\x7d" [("x", .str "v")]).1 =
      renderWithMeta0 "plain \x7b\x7b x \x7d\x7d" [("x", .str "v")] ∧
    renderWithMeta0 "plain \x7b\x7b x \x7d\x7d" [("x", .str "v")] =
      .ok ⟨"plain v", [], []⟩ :=
  ⟨WFCache_empty, by rfl,
    (renders_isolated ⟨[]⟩ "\x7b% must_include_each \x22a\x22 %\x7d"
      "plain \x7b\x7b x \x7d\x7d" [] [("x", .str "v")] WFCache_empty).2.1,
    by rfl⟩

theorem updateMeta_get (metas : List PromptEngMeta) (i : Nat)
    (f : PromptEngMeta → PromptEngMeta) :
    (updateMeta metas i f).get? i = (metas.get? i).map f := by
  induction metas generalizing i with
  | nil => simp [updateMeta]
  | cons m rest ih =>
    cases i with
    | zero => simp [updateMeta]
    | succ j => simpa [updateMeta] using ih j

/-- C2: semantics of one execution of `must_include_each` during a
render whose scope already resolves the metadata record (as every
`renderWithMeta` evaluation does from the start): evaluating the tag
succeeds, emits the fixed instructional sentence for a non-empty word
list and the empty string for an empty one, and appends exactly one
`must_include_each` constraint to that record — in every case, including
the empty word list. The word list is: each element stringified if the
argument evaluates to an array; the comma-split, trimmed, empty-dropped
pieces if it evaluates to a string; `[]` otherwise. -/
theorem must_include_each_semantics (e : LExpr) (st : RState) (i : Nat)
    (hm : getVar st pk = .metaRef i) (hi : i < st.metas.length) :
    evalNode (.mieN e) st =
      .ok (mieSentence (mieWords (evalLExpr st e)),
        pushConstraint st i (mieWords (evalLExpr st e))) ∧
    (∃ m, st.metas.get? i = some m ∧
      (pushConstraint st i (mieWords (evalLExpr st e))).metas.get? i =
        some { m with constraints := m.constraints ++
          [⟨"must_include_each", mieWords (evalLExpr st e)⟩] }) ∧
    (pushConstraint st i (mieWords (evalLExpr st e))).scopes = st.scopes ∧
    (∀ xs, evalLExpr st e = .arr xs →
      mieWords (evalLExpr st e) = xs.map jsString) ∧
    (∀ s, evalLExpr st e = .str s →
      mieWords (evalLExpr st e) =
        ((splitChar ',' s.data).map (fun l => String.mk (jsTrimList l))).filter
          (fun w => w ≠ "")) ∧
    ((∀ xs, evalLExpr st e ≠ .arr xs) → (∀ s, evalLExpr st e ≠ .str s) →
      mieWords (evalLExpr st e) = []) ∧
    (mieWords (evalLExpr st e) = [] →
      mieSentence (mieWords (evalLExpr st e)) = "") ∧
    (mieWords (evalLExpr st e) ≠ [] →
      mieSentence (mieWords (evalLExpr st e)) =
        "IMPORTANT: You MUST use EACH of these words at least once: " ++
          String.intercalate ", " (mieWords (evalLExpr st e)) ++ ".") := by
  refine ⟨?_, ?_, rfl, ?_, ?_, ?_, ?_, ?_⟩
  · simp only [evalNode, metaLookupOrInit, hm, bind, Except.bind]
  · have hg : st.metas.get? i = some (st.metas.get ⟨i, hi⟩) := List.get?_eq_get hi
    refine ⟨st.metas.get ⟨i, hi⟩, hg, ?_⟩
    simp only [pushConstraint]
    rw [updateMeta_get, hg]
    rfl
  · intro xs hx; rw [hx]; rfl
  · intro s hx; rw [hx]; rfl
  · intro ha hb
    cases hv : evalLExpr st e <;> first
      | exact absurd hv (ha _)
      | exact absurd hv (hb _)
      | rfl
  · intro h; simp [mieSentence, h]
  · intro h; simp [mieSentence, h]

/-- Witness for C2 at the initial `renderWithMeta` state: the array
input `["alpha", "beta"]` yields the instructional sentence and exactly
one recorded constraint; as a corollary at the full-render level, the
empty-array input emits nothing and still records one constraint with
`words: []`. -/
theorem must_include_each_semantics_witness :
    getVar (initRenderWM []) pk = .metaRef 0 ∧
    0 < (initRenderWM []).metas.length ∧
    evalNode (.mieN ⟨.litA (.arr [.str "alpha", .str "beta"]), []⟩)
        (initRenderWM []) =
      .ok (mieSentence (mieWords (evalLExpr (initRenderWM [])
          ⟨.litA (.arr [.str "alpha", .str "beta"]), []⟩)),
        pushConstraint (initRenderWM []) 0
          (mieWords (evalLExpr (initRenderWM [])
            ⟨.litA (.arr [.str "alpha", .str "beta"]), []⟩))) ∧
    renderWithMeta0 "\x7b% must_include_each words %\x7d"
        [("words", .arr [.str "alpha", .str "beta"])] =
      .ok ⟨"IMPORTANT: You MUST use EACH of these words at least once: alpha, beta.",
        [⟨"must_include_each", ["alpha", "beta"]⟩], []⟩ ∧
    renderWithMeta0 "\x7b% must_include_each words %\x7d"
        [("words", .arr [])] =
      .ok ⟨"", [⟨"must_include_each", []⟩], []⟩ :=
  ⟨rfl, by decide,
    (must_include_each_semantics ⟨.litA (.arr [.str "alpha", .str "beta"]), []⟩
      (initRenderWM []) 0 rfl (by decide)).1,
    rfl, rfl⟩

/-- C9: every one of the eight registered filters is total over
arbitrary input — `undefined`, `null`, and wrong-typed values included —
returning a value by coercion or passthrough, never an error:
`default` returns either the input or the fallback; `join`, `lower` and
`upper` always coerce to a string; `length` always returns a number;
`uniq`, `compact` and `sort` return an array on arrays and pass every
non-array input through unchanged. -/
theorem builtin_filters_total (v : LValue) (args : List LValue) :
    (applyFilter "default" v args = v ∨
      applyFilter "default" v args = args.headD .undefined) ∧
    (∃ s, applyFilter "join" v args = .str s) ∧
    (∃ s, applyFilter "lower" v args = .str s) ∧
    (∃ s, applyFilter "upper" v args = .str s) ∧
    (∃ n, applyFilter "length" v args = .num n) ∧
    ((∀ xs, v ≠ .arr xs) → applyFilter "uniq" v args = v ∧
      applyFilter "compact" v args = v ∧ applyFilter "sort" v args = v) ∧
    (∀ xs, v = .arr xs →
      (∃ ys, applyFilter "uniq" v args = .arr ys) ∧
      (∃ ys, applyFilter "compact" v args = .arr ys) ∧
      (∃ ys, applyFilter "sort" v args = .arr ys)) := by
  refine ⟨?_, ?_, ?_, ?_, ?_, ?_, ?_⟩
  · cases v <;> simp [applyFilter, filterDefault]
    case str s => cases hs : decide (s = "") <;> simp_all [filterDefault]
  · cases v <;> exact ⟨_, rfl⟩
  · cases v <;> exact ⟨_, rfl⟩
  · cases v <;> exact ⟨_, rfl⟩
  · cases v <;> exact ⟨_, rfl⟩
  · intro h
    cases v <;> first
      | exact absurd rfl (h _)
      | exact ⟨rfl, rfl, rfl⟩
  · intro xs hx
    subst hx
    exact ⟨⟨_, rfl⟩, ⟨_, rfl⟩, ⟨_, rfl⟩⟩

/-- Witness for C9 (the sixth clause has a hypothesis): passthrough on a
wrong-typed input, and array outputs on an array input. -/
theorem builtin_filters_total_witness :
    (∀ xs, LValue.num 7 ≠ .arr xs) ∧
    applyFilter "uniq" (.num 7) [] = .num 7 ∧
    applyFilter "sort" (.arr [.str "b", .str "a"]) [] =
      .arr [.str "a", .str "b"] :=
  ⟨fun xs h => (by cases h),
    ((builtin_filters_total (.num 7) []).2.2.2.2.2.1
      (fun xs h => (by cases h))).1,
    rfl⟩

/-- C10: the metadata record that `renderWithMeta` consults and returns
is the one it created for the call, never a caller-supplied value. The
scope is built as `\x7b ...variables, __promptengMeta: meta \x7d`, so
the injected binding overrides any caller-supplied key of that name —
the initial lookup of the reserved key yields the fresh record (store
slot 0) for every caller map, including one that already binds
`__promptengMeta`; and the returned sections/constraints are read back
from that same created record. -/
theorem renderWithMeta_meta_is_call_created (tmpl : String)
    (vars : List (String × LValue)) (junk : LValue) :
    getVar (initRenderWM (setKey vars pk junk)) pk = .metaRef 0 ∧
    (initRenderWM (setKey vars pk junk)).metas = [emptyMeta] ∧
    (∀ out st', renderWithMeta0Run tmpl (setKey vars pk junk) = .ok (out, st') →
      renderWithMeta0 tmpl (setKey vars pk junk) =
        .ok ⟨out, (st'.metas.headD emptyMeta).constraints,
          (st'.metas.headD emptyMeta).sections⟩) := by
  refine ⟨?_, rfl, ?_⟩
  · simp [initRenderWM, getVar, findInScopes, lookupKey, lookupKey_setKey_self]
  · intro out st' h
    unfold renderWithMeta0Run at h
    unfold renderWithMeta0 evalWM
    cases hp : parseTemplate tmpl with
    | error e => simp only [hp] at h; cases h
    | ok ns =>
      simp only [hp] at h ⊢
      rw [h]

/-- Witness for C10: a caller map that itself binds the reserved key to
a junk string; the render still reads and returns the fresh record. -/
theorem renderWithMeta_meta_is_call_created_witness :
    getVar (initRenderWM (setKey [] pk (.str "EVIL"))) pk = .metaRef 0 ∧
    renderWithMeta0Run "x" (setKey [] pk (.str "EVIL")) =
      .ok ("x", ⟨setKey (setKey [] pk (.str "EVIL")) pk (.metaRef 0),
        [[]], [emptyMeta]⟩) ∧
    renderWithMeta0 "x" (setKey [] pk (.str "EVIL")) = .ok ⟨"x", [], []⟩ :=
  ⟨(renderWithMeta_meta_is_call_created "x" [] (.str "EVIL")).1, rfl,
    (renderWithMeta_meta_is_call_created "x" [] (.str "EVIL")).2.2 "x" _ rfl⟩

theorem evalNodes_textOnly (body : List Node) (h : body.all isTextB = true) :
    ∀ st : RState, evalNodes body st = .ok (topTexts body, st) := by
  induction body with
  | nil => intro st; rfl
  | cons n rest ih =>
    intro st
    simp only [List.all_cons, Bool.and_eq_true] at h
    cases n with
    | text s =>
      simp only [evalNodes, evalNode, bind, Except.bind, ih h.2]
      rfl
    | outputN e => simp [isTextB] at h
    | upperN e => simp [isTextB] at h
    | mieN e => simp [isTextB] at h
    | assignN k e => simp [isTextB] at h
    | captureN k b => simp [isTextB] at h
    | secN a b => simp [isTextB] at h

theorem evalNodes_secText (ns : List Node) (h : ns.all secOrTextB = true) :
    ∀ (vars : List (String × LValue)) (acc : List (String × String)),
      evalNodes ns ⟨setKey vars pk (.metaRef 0), [[]], [⟨[], acc⟩]⟩ =
        .ok (topTexts ns,
          ⟨setKey vars pk (.metaRef 0), [[]], [⟨[], secMapAcc ns acc⟩]⟩) := by
  induction ns with
  | nil => intro vars acc; rfl
  | cons n rest ih =>
    intro vars acc
    simp only [List.all_cons, Bool.and_eq_true] at h
    cases n with
    | text s =>
      simp only [evalNodes, evalNode, bind, Except.bind, ih h.2 vars acc]
      rfl
    | secN arg body =>
      have hbody : body.all isTextB = true := by
        simpa [secOrTextB] using h.1
      have hmi : metaLookupOrInit
          ⟨setKey vars pk (.metaRef 0), [[]], [⟨[], acc⟩]⟩ =
          .ok (0, ⟨setKey vars pk (.metaRef 0), [[]], [⟨[], acc⟩]⟩) := by
        simp [metaLookupOrInit, getVar, findInScopes, lookupKey,
          lookupKey_setKey_self]
      simp only [evalNodes, evalNode, bind, Except.bind, hmi,
        evalNodes_textOnly body hbody]
      have hput : putSection ⟨setKey vars pk (.metaRef 0), [[]], [⟨[], acc⟩]⟩ 0
          (stripQuotes arg) (topTexts body) =
          ⟨setKey vars pk (.metaRef 0), [[]],
            [⟨[], setKey acc (stripQuotes arg) (topTexts body)⟩]⟩ := rfl
      rw [hput, ih h.2 vars (setKey acc (stripQuotes arg) (topTexts body))]
      rfl
    | outputN e => simp [secOrTextB] at h
    | upperN e => simp [secOrTextB] at h
    | mieN e => simp [secOrTextB] at h
    | assignN k e => simp [secOrTextB] at h
    | captureN k b => simp [secOrTextB] at h

/-- C1 as amended: for a template whose entire body is section blocks
(wrapping literal text) plus literal whitespace/text, and any variable
binding, `renderWithMeta` returns primary text equal to exactly the
literal text outside the blocks — each section block emits the empty
string inline — and a sections map holding each named block's rendered
content, exactly as rendered and not trimmed, under the block's
quote-stripped name (last write wins on duplicate names); no constraint
is recorded. -/
theorem sections_only_render (tmpl : String) (vars : List (String × LValue))
    (ns : List Node) (hp : parseTemplate tmpl = .ok ns)
    (hs : ns.all secOrTextB = true) :
    renderWithMeta0 tmpl vars = .ok ⟨topTexts ns, [], secMapAcc ns []⟩ := by
  unfold renderWithMeta0
  simp only [hp]
  unfold evalWM initRenderWM
  rw [show (emptyMeta : PromptEngMeta) = ⟨[], []⟩ from rfl]
  rw [evalNodes_secText ns hs vars []]
  rfl

/-- Witness for C1's amended theorem at the two-section template with a
trailing footer line. -/
theorem sections_only_render_witness :
    parseTemplate
        "\x7b% section system %\x7dSys\x7b% endsection %\x7d\n\x7b% section \x22prompt\x22 %\x7dHello\x7b% endsection %\x7d\nFooter" =
      .ok [Node.secN "system" [Node.text "Sys"], Node.text "\n",
        Node.secN "\x22prompt\x22" [Node.text "Hello"], Node.text "\nFooter"] ∧
    renderWithMeta0
        "\x7b% section system %\x7dSys\x7b% endsection %\x7d\n\x7b% section \x22prompt\x22 %\x7dHello\x7b% endsection %\x7d\nFooter"
        [("unused", .num 3)] =
      .ok ⟨topTexts [Node.secN "system" [Node.text "Sys"], Node.text "\n",
          Node.secN "\x22prompt\x22" [Node.text "Hello"], Node.text "\nFooter"],
        [],
        secMapAcc [Node.secN "system" [Node.text "Sys"], Node.text "\n",
          Node.secN "\x22prompt\x22" [Node.text "Hello"], Node.text "\nFooter"] []⟩ ∧
    topTexts [Node.secN "system" [Node.text "Sys"], Node.text "\n",
        Node.secN "\x22prompt\x22" [Node.text "Hello"], Node.text "\nFooter"] =
      "\n\nFooter" ∧
    secMapAcc [Node.secN "system" [Node.text "Sys"], Node.text "\n",
        Node.secN "\x22prompt\x22" [Node.text "Hello"], Node.text "\nFooter"] [] =
      [("system", "Sys"), ("prompt", "Hello")] :=
  ⟨rfl,
    sections_only_render _ [("unused", .num 3)] _ rfl (by decide),
    rfl, rfl⟩

/-- Counterexample to C1 as stated: the claim says the sections map
holds each block's trimmed content. A section body with surrounding
spaces is stored untrimmed (`meta.sections[name] = emitter.buffer`, no
trim in `SectionTag.render`): the block wrapping ` Y ` stores ` Y `,
not the trimmed `"Y"`. -/
theorem sections_not_trimmed_counterexample :
    renderWithMeta0 "\x7b% section \x22X\x22 %\x7d Y \x7b% endsection %\x7dZ" [] =
      .ok ⟨"Z", [], [("X", " Y ")]⟩ ∧
    lookupKey [("X", " Y ")] "X" = some " Y " ∧
    jsTrim " Y " = "Y" ∧
    (" Y " : String) ≠ "Y" :=
  ⟨rfl, rfl, rfl, by decide⟩

mutual
/-- Does a node (recursively) contain a `section` directive? -/
def hasSecB : Node → Bool
  | .secN _ _ => true
  | .captureN _ body => hasSecsB body
  | _ => false

/-- `hasSecB` over a list. -/
def hasSecsB : List Node → Bool
  | [] => false
  | n :: ns => hasSecB n || hasSecsB ns
end

theorem findInScopes_none (n : String) :
    ∀ scopes, (∀ fr ∈ scopes, lookupKey fr n = none) →
      findInScopes scopes n = none := by
  intro scopes
  induction scopes with
  | nil => intro _; rfl
  | cons fr rest ih =>
    intro h
    simp only [findInScopes, h fr (List.mem_cons_self fr rest)]
    exact ih (fun fr' h' => h fr' (List.mem_cons_of_mem _ h'))

theorem updateLast_cons {α : Type} (f : α → α) (x : α) (l : List α) (h : l ≠ []) :
    updateLast f (x :: l) = x :: updateLast f l := by
  cases l with
  | nil => exact absurd rfl h
  | cons y ys => rfl

theorem updateLast_mem {α : Type} (f : α → α) :
    ∀ (l : List α) (x : α), x ∈ updateLast f l → x ∈ l ∨ ∃ y ∈ l, x = f y := by
  intro l
  induction l with
  | nil => intro x h; simp [updateLast] at h
  | cons a t ih =>
    intro x h
    cases t with
    | nil =>
      simp only [updateLast, List.mem_singleton] at h
      exact Or.inr ⟨a, List.mem_singleton_self a, h⟩
    | cons b u =>
      rw [updateLast_cons f a (b :: u) (by simp)] at h
      rcases List.mem_cons.mp h with hax | hrest
      · exact Or.inl (hax ▸ List.mem_cons_self a _)
      · rcases ih x hrest with hin | ⟨y, hy, hxy⟩
        · exact Or.inl (List.mem_cons_of_mem _ hin)
        · exact Or.inr ⟨y, List.mem_cons_of_mem _ hy, hxy⟩

theorem updateLast_ne_nil {α : Type} (f : α → α) (l : List α) (h : l ≠ []) :
    updateLast f l ≠ [] := by
  cases l with
  | nil => exact absurd rfl h
  | cons x xs => cases xs <;> simp [updateLast]

theorem updateMeta_mem :
    ∀ (metas : List PromptEngMeta) (i : Nat) (f : PromptEngMeta → PromptEngMeta)
      (m' : PromptEngMeta), m' ∈ updateMeta metas i f →
      m' ∈ metas ∨ ∃ m ∈ metas, m' = f m := by
  intro metas
  induction metas with
  | nil => intro i f m' h; simp [updateMeta] at h
  | cons m rest ih =>
    intro i f m' h
    cases i with
    | zero =>
      simp only [updateMeta, List.mem_cons] at h
      rcases h with hfm | hin
      · exact Or.inr ⟨m, List.mem_cons_self m rest, hfm⟩
      · exact Or.inl (List.mem_cons_of_mem _ hin)
    | succ j =>
      simp only [updateMeta, List.mem_cons] at h
      rcases h with hmm | hin
      · exact Or.inl (hmm ▸ List.mem_cons_self m rest)
      · rcases ih j f m' hin with h1 | ⟨y, hy, hxy⟩
        · exact Or.inl (List.mem_cons_of_mem _ h1)
        · exact Or.inr ⟨y, List.mem_cons_of_mem _ hy, hxy⟩

theorem updateMeta_ne_nil (metas : List PromptEngMeta) (i : Nat)
    (f : PromptEngMeta → PromptEngMeta) (h : metas ≠ []) :
    updateMeta metas i f ≠ [] := by
  cases metas with
  | nil => exact absurd rfl h
  | cons m rest => cases i <;> simp [updateMeta]

theorem sim_getVar_ne {vars : List (String × LValue)} {sr sw : RState}
    (h : Sim vars sr sw) {n : String} (hn : n ≠ pk) :
    getVar sr n = getVar sw n := by
  obtain ⟨hv, he, hw, hsc, hfr, hne, hm, hsec⟩ := h
  unfold getVar
  have henv : lookupKey sr.envs n = lookupKey sw.envs n := by
    rw [he, hw, lookupKey_setKey_ne _ _ _ _ hn]
  cases hsc with
  | inl heq => rw [heq, henv]
  | inr hex =>
    obtain ⟨j, hj⟩ := hex
    rw [hj]
    simp only [findInScopes, lookupKey, if_neg (Ne.symm hn)]
    cases hfs : findInScopes sw.scopes n <;> simp [hfs, henv]

theorem sim_getVar_pk_w {vars : List (String × LValue)} {sr sw : RState}
    (h : Sim vars sr sw) : getVar sw pk = .metaRef 0 := by
  obtain ⟨hv, he, hw, hsc, hfr, hne, hm, hsec⟩ := h
  unfold getVar
  rw [findInScopes_none pk sw.scopes hfr, hw, lookupKey_setKey_self]

theorem sim_pk_cases {vars : List (String × LValue)} {sr sw : RState}
    (h : Sim vars sr sw) :
    (sr.scopes = sw.scopes ∧ getVar sr pk = .undefined) ∨
    (∃ j, sr.scopes = [(pk, LValue.metaRef j)] :: sw.scopes ∧
      getVar sr pk = .metaRef j) := by
  obtain ⟨hv, he, hw, hsc, hfr, hne, hm, hsec⟩ := h
  cases hsc with
  | inl heq =>
    refine Or.inl ⟨heq, ?_⟩
    unfold getVar
    rw [heq, findInScopes_none pk sw.scopes hfr, he, hv]
  | inr hex =>
    obtain ⟨j, hj⟩ := hex
    refine Or.inr ⟨j, hj, ?_⟩
    unfold getVar
    rw [hj]
    simp [findInScopes, lookupKey]

theorem sim_evalAtom_eq {vars : List (String × LValue)} {sr sw : RState}
    (h : Sim vars sr sw) (a : Atom) (ha : atomNoPk a = true) :
    evalAtom sr a = evalAtom sw a := by
  cases a with
  | varA n =>
    simp only [atomNoPk, decide_eq_true_eq] at ha
    exact sim_getVar_ne h ha
  | litA v => rfl

theorem sim_foldFilters_eq {vars : List (String × LValue)} {sr sw : RState}
    (h : Sim vars sr sw) :
    ∀ (fs : List FilterCall), (∀ fc ∈ fs, ∀ a ∈ fc.args, atomNoPk a = true) →
      ∀ acc, fs.foldl (evalFilterCall sr) acc = fs.foldl (evalFilterCall sw) acc := by
  intro fs
  induction fs with
  | nil => intro _ acc; rfl
  | cons fc rest ih =>
    intro hf acc
    simp only [List.foldl_cons]
    have hargs : fc.args.map (evalAtom sr) = fc.args.map (evalAtom sw) := by
      apply List.map_congr_left
      intro a ha'
      exact sim_evalAtom_eq h a (hf fc (List.mem_cons_self fc rest) a ha')
    rw [show evalFilterCall sr acc fc = evalFilterCall sw acc fc from by
      unfold evalFilterCall; rw [hargs]]
    exact ih (fun fc' h' => hf fc' (List.mem_cons_of_mem _ h')) _

theorem sim_evalLExpr_eq {vars : List (String × LValue)} {sr sw : RState}
    (h : Sim vars sr sw) (e : LExpr) (he : exprNoPk e = true) :
    evalLExpr sr e = evalLExpr sw e := by
  simp only [exprNoPk, Bool.and_eq_true, List.all_eq_true] at he
  unfold evalLExpr
  rw [sim_evalAtom_eq h e.base he.1]
  exact sim_foldFilters_eq h e.filters
    (fun fc hfc a ha => by
      have := he.2 fc hfc
      simp only [List.all_eq_true] at this
      exact this a ha) _

theorem sim_writeBottom {vars : List (String × LValue)} {sr sw : RState}
    (h : Sim vars sr sw) (k : String) (hk : ¬k = pk) (v : LValue) :
    Sim vars (writeBottom sr k v) (writeBottom sw k v) := by
  obtain ⟨hv, he, hw, hsc, hfr, hne, hm, hsec⟩ := h
  refine ⟨hv, he, hw, ?_, ?_, ?_, hm, hsec⟩
  · cases hsc with
    | inl heq =>
      exact Or.inl (by simp only [writeBottom]; rw [heq])
    | inr hex =>
      obtain ⟨j, hj⟩ := hex
      refine Or.inr ⟨j, ?_⟩
      simp only [writeBottom]
      rw [hj, updateLast_cons _ _ _ hne]
  · intro fr hmem
    simp only [writeBottom] at hmem
    rcases updateLast_mem _ _ _ hmem with hin | ⟨y, hy, hxy⟩
    · exact hfr fr hin
    · rw [hxy, lookupKey_setKey_ne _ _ _ _ (fun hh => hk hh.symm)]
      exact hfr y hy
  · exact updateLast_ne_nil _ _ hne

mutual
/-- One-node simulation between a `render` evaluation and a
`renderWithMeta` evaluation of the same node: on nodes free of `section`
directives and of references to the reserved metadata key, both succeed,
emit identical text, and stay in simulation. `must_include_each` is the
interesting case: the `renderWithMeta` side always finds the injected
record (slot 0); the `render` side either finds its lazily created
record or creates one now, pushing the extra top scope frame the
simulation relation allows for. -/
theorem evalNode_sim (n : Node) :
    ∀ (vars : List (String × LValue)) (sr sw : RState),
      nodeOkB n = true → Sim vars sr sw →
      ∃ out sr' sw', evalNode n sr = .ok (out, sr') ∧
        evalNode n sw = .ok (out, sw') ∧ Sim vars sr' sw' := by
  intro vars sr sw hok h
  cases n with
  | text s => exact ⟨s, sr, sw, rfl, rfl, h⟩
  | outputN e =>
    simp only [nodeOkB] at hok
    have hexpr := sim_evalLExpr_eq h e hok
    exact ⟨stringifyL (evalLExpr sr e), sr, sw, rfl, by rw [hexpr] at *; rfl, h⟩
  | upperN e =>
    simp only [nodeOkB] at hok
    have hexpr := sim_evalLExpr_eq h e hok
    exact ⟨jsToUpper (jsString (evalLExpr sr e)), sr, sw, rfl,
      by rw [hexpr] at *; rfl, h⟩
  | assignN k e =>
    simp only [nodeOkB, Bool.and_eq_true, decide_eq_true_eq] at hok
    have hexpr := sim_evalLExpr_eq h e hok.2
    refine ⟨"", writeBottom sr k (evalLExpr sr e),
      writeBottom sw k (evalLExpr sw e), rfl, rfl, ?_⟩
    rw [← hexpr]
    exact sim_writeBottom h k hok.1 (evalLExpr sr e)
  | captureN k body =>
    simp only [nodeOkB, Bool.and_eq_true, decide_eq_true_eq] at hok
    obtain ⟨out, sr1, sw1, e1, e2, hsim1⟩ :=
      evalNodes_sim body vars sr sw hok.2 h
    refine ⟨"", writeBottom sr1 k (.str out), writeBottom sw1 k (.str out),
      ?_, ?_, sim_writeBottom hsim1 k hok.1 (.str out)⟩
    · simp only [evalNode, bind, Except.bind, e1]
    · simp only [evalNode, bind, Except.bind, e2]
  | secN arg body => simp [nodeOkB] at hok
  | mieN e =>
    simp only [nodeOkB] at hok
    have hexpr := sim_evalLExpr_eq h e hok
    have hw0 := sim_getVar_pk_w h
    have hcases := sim_pk_cases h
    have hcopy := h
    obtain ⟨hv, he, hw, hsc, hfr, hne, hm, hsec⟩ := hcopy
    have hswEval : evalNode (.mieN e) sw =
        .ok (mieSentence (mieWords (evalLExpr sr e)),
          pushConstraint sw 0 (mieWords (evalLExpr sr e))) := by
      simp only [evalNode, bind, Except.bind, metaLookupOrInit, hw0, hexpr]
    have hswSim : ∀ i,
        (updateMeta sw.metas i (fun m => { m with constraints :=
          m.constraints ++ [⟨"must_include_each",
            mieWords (evalLExpr sr e)⟩] }) ≠ []) ∧
        (∀ m' ∈ updateMeta sw.metas i (fun m => { m with constraints :=
          m.constraints ++ [⟨"must_include_each",
            mieWords (evalLExpr sr e)⟩] }), m'.sections = []) := by
      intro i
      constructor
      · exact updateMeta_ne_nil _ _ _ hm
      · intro m' hmem
        rcases updateMeta_mem _ _ _ _ hmem with hin | ⟨m, hmem2, hxy⟩
        · exact hsec _ hin
        · rw [hxy]
          exact hsec m hmem2
    rcases hcases with ⟨heq, hundef⟩ | ⟨j, hj, href⟩
    · refine ⟨mieSentence (mieWords (evalLExpr sr e)),
        pushConstraint { sr with
          metas := sr.metas ++ [emptyMeta],
          scopes := [(pk, LValue.metaRef sr.metas.length)] :: sr.scopes }
          sr.metas.length (mieWords (evalLExpr sr e)),
        pushConstraint sw 0 (mieWords (evalLExpr sr e)),
        ?_, hswEval, ?_⟩
      · simp only [evalNode, bind, Except.bind, metaLookupOrInit, hundef,
          jsTruthy, Bool.false_eq_true, if_false]
      · refine ⟨hv, he, hw, ?_, hfr, hne, (hswSim 0).1, (hswSim 0).2⟩
        refine Or.inr ⟨sr.metas.length, ?_⟩
        show ([(pk, LValue.metaRef sr.metas.length)] :: sr.scopes) = _
        rw [heq]
        rfl
    · refine ⟨mieSentence (mieWords (evalLExpr sr e)),
        pushConstraint sr j (mieWords (evalLExpr sr e)),
        pushConstraint sw 0 (mieWords (evalLExpr sr e)),
        ?_, hswEval, ?_⟩
      · simp only [evalNode, bind, Except.bind, metaLookupOrInit, href]
      · refine ⟨hv, he, hw, ?_, hfr, hne, (hswSim 0).1, (hswSim 0).2⟩
        refine Or.inr ⟨j, ?_⟩
        show sr.scopes = _
        exact hj

/-- List version of `evalNode_sim`. -/
theorem evalNodes_sim (ns : List Node) :
    ∀ (vars : List (String × LValue)) (sr sw : RState),
      nodesOkB ns = true → Sim vars sr sw →
      ∃ out sr' sw', evalNodes ns sr = .ok (out, sr') ∧
        evalNodes ns sw = .ok (out, sw') ∧ Sim vars sr' sw' := by
  intro vars sr sw hok h
  cases ns with
  | nil => exact ⟨"", sr, sw, rfl, rfl, h⟩
  | cons n rest =>
    simp only [nodesOkB, Bool.and_eq_true] at hok
    obtain ⟨o1, sr1, sw1, e1, e2, hsim1⟩ := evalNode_sim n vars sr sw hok.1 h
    obtain ⟨o2, sr2, sw2, f1, f2, hsim2⟩ :=
      evalNodes_sim rest vars sr1 sw1 hok.2 hsim1
    refine ⟨o1 ++ o2, sr2, sw2, ?_, ?_, hsim2⟩
    · simp only [evalNodes, bind, Except.bind, e1, f1]
    · simp only [evalNodes, bind, Except.bind, e2, f2]
end

/-- C8 as amended: for a template with no `section` directive that also
never mentions the reserved key `__promptengMeta` (no read in any
expression, no `assign`/`capture` to it), and a variable binding without
that key, `renderWithMeta` returns an empty sections map and a text
string equal to the exact string `render` returns. (Without the
reserved-key restriction the texts can differ, see the
counterexample.) -/
theorem no_section_render_agreement (tmpl : String)
    (vars : List (String × LValue)) (ns : List Node)
    (hp : parseTemplate tmpl = .ok ns) (hok : nodesOkB ns = true)
    (hv : lookupKey vars pk = none) :
    ∃ txt cs, render0 tmpl vars = .ok txt ∧
      renderWithMeta0 tmpl vars = .ok ⟨txt, cs, []⟩ := by
  have hsim : Sim vars (initRender vars) (initRenderWM vars) := by
    refine ⟨hv, rfl, rfl, Or.inl rfl, ?_, ?_, ?_, ?_⟩
    · intro fr hmem
      simp only [initRenderWM, List.mem_singleton] at hmem
      rw [hmem]
      rfl
    · simp [initRenderWM]
    · simp [initRenderWM]
    · intro m hmem
      simp only [initRenderWM, List.mem_singleton] at hmem
      rw [hmem]
      rfl
  obtain ⟨out, sr', sw', h1, h2, hsim'⟩ := evalNodes_sim ns vars _ _ hok hsim
  obtain ⟨_, _, _, _, _, _, hm', hsec'⟩ := hsim'
  have hsecs : (sw'.metas.headD emptyMeta).sections = [] := by
    cases hms : sw'.metas with
    | nil => exact absurd hms hm'
    | cons m rest =>
      simp only [List.headD_cons]
      exact hsec' m (hms ▸ List.mem_cons_self m rest)
  refine ⟨out, (sw'.metas.headD emptyMeta).constraints, ?_, ?_⟩
  · unfold render0
    simp only [hp]
    unfold evalR
    rw [h1]
  · unfold renderWithMeta0
    simp only [hp]
    unfold evalWM
    simp only [h2, hsecs]

/-- Witness for C8's amended theorem: a template using
`must_include_each` (the directive that makes the two initial states
genuinely differ) plus output text, no `section`, no reserved-key
reference; both entry points produce the same text and the sections map
is empty. -/
theorem no_section_render_agreement_witness :
    parseTemplate "\x7b% must_include_each \x22a\x22 %\x7d-\x7b\x7b x \x7d\x7d" =
      .ok [Node.mieN ⟨.litA (.str "a"), []⟩, Node.text "-",
        Node.outputN ⟨.varA "x", []⟩] ∧
    nodesOkB [Node.mieN ⟨.litA (.str "a"), []⟩, Node.text "-",
      Node.outputN ⟨.varA "x", []⟩] = true ∧
    lookupKey [("x", LValue.str "v")] pk = none ∧
    render0 "\x7b% must_include_each \x22a\x22 %\x7d-\x7b\x7b x \x7d\x7d"
        [("x", LValue.str "v")] =
      .ok "IMPORTANT: You MUST use EACH of these words at least once: a.-v" ∧
    renderWithMeta0 "\x7b% must_include_each \x22a\x22 %\x7d-\x7b\x7b x \x7d\x7d"
        [("x", LValue.str "v")] =
      .ok ⟨"IMPORTANT: You MUST use EACH of these words at least once: a.-v",
        [⟨"must_include_each", ["a"]⟩], []⟩ ∧
    (∃ txt cs,
      render0 "\x7b% must_include_each \x22a\x22 %\x7d-\x7b\x7b x \x7d\x7d"
          [("x", LValue.str "v")] = .ok txt ∧
      renderWithMeta0 "\x7b% must_include_each \x22a\x22 %\x7d-\x7b\x7b x \x7d\x7d"
          [("x", LValue.str "v")] = .ok ⟨txt, cs, []⟩) :=
  ⟨rfl, rfl, rfl, rfl, rfl,
    no_section_render_agreement
      "\x7b% must_include_each \x22a\x22 %\x7d-\x7b\x7b x \x7d\x7d"
      [("x", LValue.str "v")]
      [Node.mieN ⟨.litA (.str "a"), []⟩, Node.text "-",
        Node.outputN ⟨.varA "x", []⟩] rfl rfl rfl⟩

/-- Counterexample to C8 as stated: the template that just outputs the
reserved scope variable `__promptengMeta` contains no `section`
directive, yet `renderWithMeta` (which binds the metadata record into
the scope) renders it as `[object Object]` while `render` (whose scope
lacks the key) renders the empty string — the two texts differ. -/
theorem meta_key_output_counterexample :
    (∃ ns, parseTemplate "\x7b\x7b __promptengMeta \x7d\x7d" = .ok ns ∧
      hasSecsB ns = false) ∧
    renderWithMeta0 "\x7b\x7b __promptengMeta \x7d\x7d" [] =
      .ok ⟨"[object Object]", [], []⟩ ∧
    render0 "\x7b\x7b __promptengMeta \x7d\x7d" [] = .ok "" ∧
    ("[object Object]" : String) ≠ "" :=
  ⟨⟨[Node.outputN ⟨.varA "__promptengMeta", []⟩], rfl, rfl⟩, rfl, rfl,
    by decide⟩
